import Mathlib

/-!
Verification of the iNaturalist observation dataset-preparation engine
(`dataset_old.py` / `dataset_tax.py`): a shallow embedding of the record
store, the integrity filter pipeline, the taxonomy rank collapser and the
prior estimator / dataset assemblers, together with theorems settling the
specification claims about them.

Conventions of the embedding:
* Python dicts keyed by entity id are modelled by the lists they are built
  from; a dict lookup is `lastLookup` (last binding wins, as in Python),
  a key-membership test is `List.any` over the list.
* Python `float` values that only ever hold loaded numeric data are
  modelled by `Rat`; a field that can dynamically hold either a number or
  a string (`rank_level`) is a `PyVal`.
* Operations that can raise (`KeyError`, `ValueError`, `IndexError`,
  `assert False`) return `Option`: `none` models the exception escaping
  the method.
* `random.sample` results are injected as an explicit `chosen` argument
  (the RNG is a free parameter per the specification).
-/

attribute [local semireducible] Rat.add Rat.mul Rat.sub Rat.inv

/-- A Python value that is dynamically either a float or a string
(used for `rank_level`, which is loaded as a string and converted to
`float` by the sanity pass). Python `==` across the two variants is
`False`; comparisons `<`/`>=` across them raise `TypeError`. -/
inductive PyVal where
  | num (q : ℚ)
  | str (s : String)
deriving DecidableEq, Repr

/-- Python `==` between two `PyVal`s: mixed float/str compares unequal. -/
def pyEq : PyVal → PyVal → Bool
  | .num a, .num b => a == b
  | .str a, .str b => a == b
  | _, _ => false

/-- Python `x < c` for a `PyVal` against a number: `none` models the
`TypeError` raised when `x` is a string. -/
def pyValLtNum : PyVal → ℚ → Option Bool
  | .num q, c => some (decide (q < c))
  | .str _, _ => none

/-- Python `x >= c` for a `PyVal` against a number: `none` models the
`TypeError` raised when `x` is a string. -/
def pyValGeNum : PyVal → ℚ → Option Bool
  | .num q, c => some (decide (q ≥ c))
  | .str _, _ => none

/-- Split a character list on a separator character (`str.split(sep)` for
a one-character separator, which is the only kind this program uses);
character lists rather than `String` keep the parsers kernel-evaluable. -/
def splitOnChar (c : Char) : List Char → List (List Char)
  | [] => [[]]
  | x :: xs =>
    if x = c then [] :: splitOnChar c xs
    else
      match splitOnChar c xs with
      | [] => [[x]]
      | cur :: rest => (x :: cur) :: rest

/-- Whitespace for Python's `str.strip()` on this data. -/
def isSpaceChar (c : Char) : Bool :=
  c = ' ' || c = '\t' || c = '\n' || c = '\r'

/-- Python `str.strip()` over a character list. -/
def trimChars (l : List Char) : List Char :=
  ((l.dropWhile isSpaceChar).reverse.dropWhile isSpaceChar).reverse

/-- Value of a nonempty all-digit character list. -/
def digitsVal (l : List Char) : Option Nat :=
  if 0 < l.length && l.all Char.isDigit then
    some (l.foldl (fun n c => n * 10 + (c.toNat - 48)) 0)
  else none

/-- Python `int(..)` on a character list: whitespace stripped, optional
sign, digits. -/
def pyIntChars (l : List Char) : Option Int :=
  match trimChars l with
  | '-' :: t => (digitsVal t).map (fun n => -(n : Int))
  | '+' :: t => (digitsVal t).map (fun n => (n : Int))
  | t => (digitsVal t).map (fun n => (n : Int))

/-- Python `int(s)` on a string. -/
def pyInt (s : String) : Option Int := pyIntChars s.toList

/-- Python `float(s)` on plain decimal literals (optional sign, digits,
optional fractional part); exponents and specials are out of scope of the
data this program loads. -/
def pyFloatOfString (s : String) : Option ℚ :=
  let t := trimChars s.toList
  let sign : ℚ := if t.head? = some '-' then -1 else 1
  let u := if t.head? = some '-' || t.head? = some '+' then t.tail else t
  match splitOnChar '.' u with
  | [a] => (digitsVal a).map (fun n => sign * n)
  | [a, b] =>
    if a.length = 0 && b.length = 0 then none
    else
      match (if a.length = 0 then some 0 else digitsVal a),
            (if b.length = 0 then some 0 else digitsVal b) with
      | some n, some f => some (sign * ((n : ℚ) + (f : ℚ) / ((10 : ℚ) ^ b.length)))
      | _, _ => none
  | _ => none

/-- Python `float(v)`: a float stays itself, a string is parsed. -/
def pyFloat : PyVal → Option ℚ
  | .num q => some q
  | .str s => pyFloatOfString s

/-- A parsed timestamp (what `datetime.datetime` holds after `strptime`). -/
structure Timestamp where
  y : Nat
  mo : Nat
  d : Nat
  h : Nat
  mi : Nat
  s : Nat
  us : Nat
deriving DecidableEq, Repr

/-- Total order key for timestamps: lexicographic on the fields, encoded
as a single natural number (bases exceed the validated field ranges). -/
def Timestamp.key (t : Timestamp) : Nat :=
  ((((((t.y * 13 + t.mo) * 32 + t.d) * 24 + t.h) * 60 + t.mi) * 62 + t.s) * 1000000 + t.us)

/-- A field of `lo..hi` digits whose value lies in `vlo..vhi`
(the leniency of `strptime` numeric directives). -/
def numIn (l : List Char) (lo hi vlo vhi : Nat) : Option Nat :=
  if lo ≤ l.length && l.length ≤ hi then
    match digitsVal l with
    | some n => if vlo ≤ n && n ≤ vhi then some n else none
    | none => none
  else none

/-- `%Y-%m-%d` date part. -/
def parseDate (l : List Char) : Option (Nat × Nat × Nat) :=
  match splitOnChar '-' l with
  | [ys, ms, ds] =>
    match numIn ys 1 4 0 9999, numIn ms 1 2 1 12, numIn ds 1 2 1 31 with
    | some y, some mo, some d => some (y, mo, d)
    | _, _, _ => none
  | _ => none

/-- `%f`: 1 to 6 digits, scaled to microseconds. -/
def parseFrac (l : List Char) : Option Nat :=
  if 1 ≤ l.length && l.length ≤ 6 then
    (digitsVal l).map (fun n => n * 10 ^ (6 - l.length))
  else none

/-- `strptime(s, "%Y-%m-%dT%H:%M:%S.%fZ")`. -/
def parseTimeA (s : String) : Option Timestamp :=
  match splitOnChar 'T' s.toList with
  | [ds, ts] =>
    match parseDate ds with
    | none => none
    | some (y, mo, d) =>
      if ts.getLast? = some 'Z' then
        match splitOnChar ':' ts.dropLast with
        | [hs, ms, ss] =>
          match splitOnChar '.' ss with
          | [sec, frac] =>
            match numIn hs 1 2 0 23, numIn ms 1 2 0 59, numIn sec 1 2 0 61, parseFrac frac with
            | some h, some mi, some se, some us => some ⟨y, mo, d, h, mi, se, us⟩
            | _, _, _, _ => none
          | _ => none
        | _ => none
      else none
  | _ => none

/-- `strptime(s, "%Y-%m-%d %H:%M:%S")`. -/
def parseTimeB (s : String) : Option Timestamp :=
  match splitOnChar ' ' s.toList with
  | [ds, ts] =>
    match parseDate ds, splitOnChar ':' ts with
    | some (y, mo, d), [hs, ms, ss] =>
      match numIn hs 1 2 0 23, numIn ms 1 2 0 59, numIn ss 1 2 0 61 with
      | some h, some mi, some se => some ⟨y, mo, d, h, mi, se, 0⟩
      | _, _, _ => none
    | _, _ => none
  | _ => none

/-- The `created_at` parser of `keep_one_identification_per_user_per_observation`:
try the ISO-with-fractional-seconds format, fall back to the plain
space-separated format; `none` models the exception when neither parses. -/
def parseCreatedAt (s : String) : Option Timestamp :=
  (parseTimeA s).orElse (fun _ => parseTimeB s)

/-- First-occurrence deduplication (iteration over the keys of a dict or
set built by successive insertion), generalised over already-seen keys. -/
def firstDedupAux : List Int → List Int → List Int
  | _, [] => []
  | seen, x :: xs =>
    if x ∈ seen then firstDedupAux seen xs else x :: firstDedupAux (x :: seen) xs

/-- First-occurrence deduplication of a list of ids. -/
def firstDedup (l : List Int) : List Int := firstDedupAux [] l

/-- Lookup in a Python dict built by inserting `(key x, x)` for `x` over
the list left to right: the last binding wins. -/
def lastLookup {α : Type} (key : α → Int) : List α → Int → Option α
  | [], _ => none
  | x :: xs, k =>
    match lastLookup key xs k with
    | some y => some y
    | none => if key x = k then some x else none

/-- An observation record. -/
structure Obs where
  id : Int
  user_id : Int
  community_taxon_id : Option Int
  created_at : String
deriving DecidableEq, Repr

/-- An observation photo record. -/
structure ObsPhoto where
  observation_id : Int
  native_original_image_url : String
deriving DecidableEq, Repr

/-- An identification record (the `current` flag is already coerced to a
boolean by the loader, and the transient `time` key added during sorting
is not observable downstream, so it is not modelled). -/
structure Iden where
  id : Int
  observation_id : Int
  user_id : Int
  taxon_id : Int
  created_at : String
  current : Bool
deriving DecidableEq, Repr

/-- A taxon record of the full-taxonomy (`dataset_old`) variant. -/
structure Taxon where
  id : Int
  ancestry : Option String
  rank_level : PyVal
  is_active : Bool
deriving DecidableEq, Repr

/-- The record store of `dataset_old.iNaturalistDataset`: the five
collections. The id-keyed index maps are rebuilt from the lists after
every structural change in the source, so they are modelled as derived
lookups over the lists rather than stored. -/
structure Store where
  observations : List Obs
  observation_photos : List ObsPhoto
  identifications : List Iden
  taxa : List Taxon
  users : List Int
deriving DecidableEq, Repr

/-- `iden['observation_id'] in self.ob_id_to_ob`. -/
def obResolves (s : Store) (i : Iden) : Bool :=
  s.observations.any (fun ob => ob.id == i.observation_id)

/-- `iden['taxon_id'] in self.taxon_id_to_taxon`. -/
def taxResolves (s : Store) (i : Iden) : Bool :=
  s.taxa.any (fun t => t.id == i.taxon_id)

/-- The referential-integrity invariant: every identification's
`observation_id` and `taxon_id` resolve in the current store. -/
def integrityB (s : Store) : Bool :=
  s.identifications.all (fun i => obResolves s i && taxResolves s i)

namespace DatasetOld

/-- `keep_specific_observations(observation_ids_to_keep)`. -/
def keep_specific_observations (ids : List Int) (s : Store) : Store :=
  let obs1 := s.observations.filter (fun ob => ids.contains ob.id)
  let idens1 := s.identifications.filter
    (fun i => obs1.any (fun ob => ob.id == i.observation_id))
  { s with observations := obs1, identifications := idens1 }

/-- `keep_current_identifications()`: filter to `current == True`, then
assert that each observation's surviving identifications come from
pairwise-distinct users. `none` models the `KeyError` on a surviving
identification whose observation is absent from the grouping dict, or the
failed assertion. -/
def keep_current_identifications (s : Store) : Option Store :=
  let idens1 := s.identifications.filter (fun i => i.current)
  if !idens1.all (obResolves s) then none
  else if s.observations.all (fun ob =>
      let g := idens1.filter (fun i => i.observation_id == ob.id)
      (firstDedup (g.map (fun i => i.user_id))).length == g.length)
  then some { s with identifications := idens1 }
  else none

/-- `remove_obs_with_no_photos()`. -/
def remove_obs_with_no_photos (s : Store) : Store :=
  let withUrls := s.observation_photos.map (fun p => p.observation_id)
  let obs1 := s.observations.filter (fun ob => withUrls.contains ob.id)
  let idens1 := s.identifications.filter
    (fun i => obs1.any (fun ob => ob.id == i.observation_id))
  { s with observations := obs1, identifications := idens1 }

/-- `remove_non_active_taxa()`. -/
def remove_non_active_taxa (s : Store) : Store :=
  let nonActive := (s.taxa.filter (fun t => !t.is_active)).map (fun t => t.id)
  let taxa1 := s.taxa.filter (fun t => !nonActive.contains t.id)
  let idens1 := s.identifications.filter (fun i => !nonActive.contains i.taxon_id)
  { s with taxa := taxa1, identifications := idens1 }

/-- The number of identifications grouped under one observation id. -/
def cntIdens (idens : List Iden) (obId : Int) : Nat :=
  (idens.filter (fun i => i.observation_id == obId)).length

/-- The `ob_ids_to_keep` set of `enforce_min_identifications`: ids of
observations whose grouped identification count reaches the minimum. -/
def minKeepIds (m : Int) (s : Store) : List Int :=
  (s.observations.filter (fun ob =>
    decide ((cntIdens s.identifications ob.id : Int) ≥ m))).map (fun ob => ob.id)

/-- `enforce_min_identifications(min_identifications)`: `none` models the
`KeyError` raised while grouping when an identification's observation is
missing. -/
def enforce_min_identifications (m : Int) (s : Store) : Option Store :=
  if !s.identifications.all (obResolves s) then none
  else
    some { s with
      observations := s.observations.filter (fun ob => (minKeepIds m s).contains ob.id),
      identifications := s.identifications.filter
        (fun i => (s.observations.filter (fun ob => (minKeepIds m s).contains ob.id)).any
          (fun ob => ob.id == i.observation_id)) }

/-- `enforce_max_observations(max_observations)`: the ids drawn by
`random.sample` are injected as `chosen`; `none` models the `ValueError`
a negative sample size raises. -/
def enforce_max_observations (mo : Option Int) (chosen : List Int) (s : Store) : Option Store :=
  match mo with
  | none => some s
  | some m =>
    if m ≥ (s.observations.length : Int) then some s
    else if m < 0 then none
    else
      let obs1 := s.observations.filter (fun ob => chosen.contains ob.id)
      let idens1 := s.identifications.filter
        (fun i => obs1.any (fun ob => ob.id == i.observation_id))
      some { s with observations := obs1, identifications := idens1 }

/-- `create_flat_taxonomy(leaf_rank_level='10')`: keep exactly the taxa
whose `rank_level` compares `==` to the argument (note the source's
default argument is the string `'10'`). -/
def create_flat_taxonomy (leaf : PyVal) (s : Store) : Store :=
  let taxa1 := s.taxa.filter (fun t => pyEq t.rank_level leaf)
  let idens1 := s.identifications.filter
    (fun i => taxa1.any (fun t => t.id == i.taxon_id))
  { s with taxa := taxa1, identifications := idens1 }

end DatasetOld

/-- The `for iden in self.identifications: ... self.identifications.remove(iden)`
loop of `_sanity_check_data`, modelled with Python's exact semantics: the
`for` statement reads index `k` of the live list, `remove` deletes the
first element equal to the current one (so a deletion at or before the
cursor makes the next iteration skip an element), and a second `remove`
of an element no longer present raises `ValueError` (`none`). Fuel bounds
the iteration count; it is consumed once per loop iteration, and the
caller passes the initial list length, which suffices because the cursor
grows by one per iteration while the length never grows. -/
def sanityLoopF (taxBad obsBad : Iden → Bool) :
    Nat → List Iden → Nat → Option (List Iden)
  | fuel, l, k =>
    if h : k < l.length then
      match fuel with
      | 0 => none
      | fuel + 1 =>
        let x := l.get ⟨k, h⟩
        let l1 := if taxBad x then l.erase x else l
        if obsBad x then
          if x ∈ l1 then sanityLoopF taxBad obsBad fuel (l1.erase x) (k + 1) else none
        else sanityLoopF taxBad obsBad fuel l1 (k + 1)
    else some l

namespace DatasetOld

/-- The taxa surviving the preamble of `_sanity_check_data`: every taxon
whose `rank_level` parses as a float (the parse also mutates the field to
the float) and whose id occurs among the observations'
`community_taxon_id` values. When no taxon is dropped this equals the
original list with ranks converted, which is exactly what the source's
length-comparison branch keeps. -/
def initKeptTaxa (observations : List Obs) (taxa : List Taxon) : List Taxon :=
  taxa.filterMap (fun t =>
    match pyFloat t.rank_level with
    | none => none
    | some q =>
      if (observations.map (fun ob => ob.community_taxon_id)).contains (some t.id)
      then some { t with rank_level := PyVal.num q }
      else none)

/-- The identifications entering the removal loop of
`_sanity_check_data`: filtered against the kept taxa only when the
preamble dropped at least one taxon (the source's length comparison). -/
def initIdens (observations : List Obs) (idens : List Iden) (taxa : List Taxon) : List Iden :=
  if (initKeptTaxa observations taxa).length == taxa.length then idens
  else idens.filter (fun i => (initKeptTaxa observations taxa).any (fun t => t.id == i.taxon_id))

/-- The constructor of `dataset_old.iNaturalistDataset` including
`_sanity_check_data`: convert every parseable `rank_level` to a float and
keep a taxon only when it is referenced as some observation's
`community_taxon_id` (dropping identifications of dropped taxa when any
taxon was dropped), run the dangling-reference removal loop, and assert
that identification ids and observation ids are unique (`none` models the
failed assertion or an exception escaping the loop). -/
def iNaturalistDataset_init (observations : List Obs) (photos : List ObsPhoto)
    (idens : List Iden) (taxa : List Taxon) (users : List Int) : Option Store :=
  match sanityLoopF
      (fun i => !(initKeptTaxa observations taxa).any (fun t => t.id == i.taxon_id))
      (fun i => !observations.any (fun ob => ob.id == i.observation_id))
      (initIdens observations idens taxa).length (initIdens observations idens taxa) 0 with
  | none => none
  | some idens2 =>
    if (idens2.map (fun i => i.id)).Nodup ∧ (observations.map (fun ob => ob.id)).Nodup
    then some ⟨observations, photos, idens2, initKeptTaxa observations taxa, users⟩
    else none

/-- State accumulated by the classification loop of
`set_rank_level_as_leaf_level`: the remap dict (taxon id to remapped
taxon id, insertion order kept so the last binding wins), the set of
taxon ids strictly below the target rank, and the set of ids that could
not be remapped. -/
structure RankState where
  remap : List (Int × Int)
  lower : List Int
  notRemapped : List Int
deriving DecidableEq, Repr

/-- The ancestry walk: visit the reversed ancestry ids most specific
first; `int()` failure or a string-typed rank comparison raises
(`none`); `some none` means no qualifying ancestor was found; the first
ancestor present in the rank map with rank at or above the target is the
result. -/
def findAncestor (taxa : List Taxon) (leaf : ℚ) : List (List Char) → Option (Option Int)
  | [] => some none
  | tok :: rest =>
    match pyIntChars tok with
    | none => none
    | some aid =>
      match lastLookup Taxon.id taxa aid with
      | none => findAncestor taxa leaf rest
      | some t =>
        match pyValGeNum t.rank_level leaf with
        | none => none
        | some true => some (some aid)
        | some false => findAncestor taxa leaf rest

/-- The classification loop of `set_rank_level_as_leaf_level` over the
taxa list. -/
def classifyAux (taxa : List Taxon) (leaf : ℚ) : List Taxon → RankState → Option RankState
  | [], st => some st
  | t :: rest, st =>
    match pyValLtNum t.rank_level leaf with
    | none => none
    | some true =>
      let st1 := { st with lower := st.lower ++ [t.id] }
      match t.ancestry with
      | none => classifyAux taxa leaf rest { st1 with notRemapped := st1.notRemapped ++ [t.id] }
      | some a =>
        match findAncestor taxa leaf ((splitOnChar '/' a.toList).reverse) with
        | none => none
        | some none =>
          classifyAux taxa leaf rest { st1 with notRemapped := st1.notRemapped ++ [t.id] }
        | some (some aid) =>
          classifyAux taxa leaf rest { st1 with remap := st1.remap ++ [(t.id, aid)] }
    | some false => classifyAux taxa leaf rest { st with remap := st.remap ++ [(t.id, t.id)] }

/-- Classify every taxon of the store against the target rank. -/
def classifyTaxa (taxa : List Taxon) (leaf : ℚ) : Option RankState :=
  classifyAux taxa leaf taxa ⟨[], [], []⟩

/-- The identification-rewriting loop of `set_rank_level_as_leaf_level`:
identifications at a lower-rank taxon are rewritten to the remap target
(`none` on a missing remap entry, the `KeyError`); identifications whose
taxon is unknown to the rank map are removed with `list.remove`, whose
remove-during-iteration semantics skips the following element
unexamined. -/
def remapScan (lower known : Int → Bool) (remapF : Int → Option Int) :
    List Iden → Option (List Iden)
  | [] => some []
  | [x] =>
    if lower x.taxon_id then
      match remapF x.taxon_id with
      | none => none
      | some a => some [{ x with taxon_id := a }]
    else if known x.taxon_id then some [x]
    else some []
  | x :: y :: rest =>
    if lower x.taxon_id then
      match remapF x.taxon_id with
      | none => none
      | some a =>
        (remapScan lower known remapF (y :: rest)).map (fun r => { x with taxon_id := a } :: r)
    else if known x.taxon_id then
      (remapScan lower known remapF (y :: rest)).map (fun r => x :: r)
    else (remapScan lower known remapF rest).map (fun r => y :: r)

/-- `set_rank_level_as_leaf_level(leaf_rank_level)`: classify the taxa,
drop unremappable taxa and their identifications, rewrite the remaining
identifications, and delete every taxon below the target rank. -/
def set_rank_level_as_leaf_level (leaf : ℚ) (s : Store) : Option Store :=
  match classifyTaxa s.taxa leaf with
  | none => none
  | some st =>
    let taxa1 := if st.notRemapped.isEmpty then s.taxa
      else s.taxa.filter (fun t => !st.notRemapped.contains t.id)
    let idens1 := if st.notRemapped.isEmpty then s.identifications
      else s.identifications.filter (fun i => !st.notRemapped.contains i.taxon_id)
    match remapScan (fun tid => st.lower.contains tid)
        (fun tid => s.taxa.any (fun t => t.id == tid))
        (fun tid => (lastLookup Prod.fst st.remap tid).map Prod.snd) idens1 with
    | none => none
    | some idens2 =>
      some { s with identifications := idens2,
                    taxa := taxa1.filter (fun t => !st.lower.contains t.id) }

/-- The sort key used when ordering a user's identifications by time
(defined whenever the operation did not already fail on an unparseable
timestamp). -/
def timeKey (i : Iden) : Nat :=
  ((parseCreatedAt i.created_at).map Timestamp.key).getD 0

/-- The comparison `key=lambda x: x['time']` sorts by. -/
def timeLe (a b : Iden) : Prop := timeKey a ≤ timeKey b

instance : DecidableRel timeLe := fun a b => Nat.decLe _ _

/-- Python list indexing `l[k]` (negative indexes count from the end);
`none` is an `IndexError`. -/
def pyIndex (k : Int) (n : Nat) : Option Nat :=
  if 0 ≤ k then (if k < (n : Int) then some k.toNat else none)
  else (if -k ≤ (n : Int) then some (n - (-k).toNat) else none)

/-- A user's identifications on one observation, in list order. -/
def groupIdens (idens : List Iden) (obId u : Int) : List Iden :=
  idens.filter (fun i => i.observation_id == obId && i.user_id == u)

/-- For each user of one observation, the id of the identification kept
(stable sort by time, then Python indexing with `keep_index`). -/
def selectUsers (k : Int) (idens : List Iden) (obId : Int) : List Int → Option (List Int)
  | [] => some []
  | u :: us =>
    let g := List.insertionSort timeLe (groupIdens idens obId u)
    match pyIndex k g.length with
    | none => none
    | some ix =>
      match g.get? ix with
      | none => none
      | some sel => (selectUsers k idens obId us).map (fun r => sel.id :: r)

/-- The kept identification ids, grouped per observation and user. -/
def selectObs (k : Int) (idens : List Iden) : List Obs → Option (List Int)
  | [] => some []
  | ob :: rest =>
    match selectUsers k idens ob.id
        (firstDedup ((idens.filter (fun i => i.observation_id == ob.id)).map
          (fun i => i.user_id))) with
    | none => none
    | some ids => (selectObs k idens rest).map (fun r => ids ++ r)

/-- `keep_one_identification_per_user_per_observation(keep_index)`:
`none` models the `KeyError` while grouping an identification whose
observation is missing, the `strptime` failure on a timestamp matching
neither accepted format, or an out-of-range `keep_index`. -/
def keep_one_identification_per_user_per_observation (k : Int) (s : Store) : Option Store :=
  if !s.identifications.all (obResolves s) then none
  else if !s.identifications.all (fun i => (parseCreatedAt i.created_at).isSome) then none
  else
    match selectObs k s.identifications s.observations with
    | none => none
    | some keptIds =>
      some { s with identifications :=
        s.identifications.filter (fun i => keptIds.contains i.id) }

/-- Membership in the working set of `estimate_taxa_priors`: taxon ids of
surviving identifications plus the optional caller-supplied extra ids. -/
def workingMem (idens : List Iden) (extra : Option (List Int)) (t : Int) : Bool :=
  idens.any (fun i => i.taxon_id == t) ||
    (match extra with | none => false | some l => l.contains t)

/-- The working set as a list (first-occurrence order; a Python set's
iteration order is unspecified, and no property proved below depends on
this choice). -/
def workingList (idens : List Iden) (extra : Option (List Int)) : List Int :=
  firstDedup (idens.map (fun i => i.taxon_id) ++ (extra.getD []))

/-- Collect each identification's observation's `community_taxon_id` when
it is non-null and in the working set; `none` models the `KeyError` on a
dangling `observation_id`. -/
def communityIds (obs : List Obs) (keep : Int → Bool) : List Iden → Option (List Int)
  | [] => some []
  | i :: rest =>
    match lastLookup Obs.id obs i.observation_id with
    | none => none
    | some ob =>
      match ob.community_taxon_id with
      | none => communityIds obs keep rest
      | some c =>
        if keep c then (communityIds obs keep rest).map (fun r => c :: r)
        else communityIds obs keep rest

/-- `collections.Counter` of a list: keys in first-occurrence order with
their multiplicities. -/
def counterList (l : List Int) : List (Int × Nat) :=
  (firstDedup l).map (fun k => (k, l.count k))

/-- `estimate_taxa_priors(include_taxa_ids)`: count community labels over
the working set, give every unseen working-set taxon an additive count of
1, and normalize. -/
def estimate_taxa_priors (extra : Option (List Int)) (s : Store) :
    Option (List (Int × ℚ)) :=
  match communityIds s.observations (workingMem s.identifications extra)
      s.identifications with
  | none => none
  | some cids =>
    let counts := counterList cids
    let missing := ((workingList s.identifications extra).filter
      (fun t => !counts.any (fun p => p.1 == t))).map (fun t => (t, 1))
    let entries := counts ++ missing
    let total : ℚ := ((entries.map (fun p => p.2)).sum : ℕ)
    some (entries.map (fun p => (p.1, (p.2 : ℚ) / total)))

/-- One produced annotation. -/
structure AnnoRec where
  label : Nat
  image_id : Int
  worker_id : Int
  created_at : String
  id : Int
deriving DecidableEq, Repr

/-- One produced image entry. -/
structure ImageRec where
  id : Int
  created_at : String
  url : String
  urls : List String
deriving DecidableEq, Repr

/-- The interchange structure produced by `dataset_old.create_dataset`. -/
structure DatasetOldOut where
  num_classes : Nat
  inat_taxon_id_to_class_label : List (Int × Nat)
  global_class_priors : List ℚ
  workers : List Int
  images : List ImageRec
  annos : List AnnoRec
deriving DecidableEq, Repr

/-- Build the annotation list; `none` models the `assert False` on an
identification whose taxon has no class label. -/
def buildAnnos (labelMap : List (Int × Nat)) : List Iden → Option (List AnnoRec)
  | [] => some []
  | i :: rest =>
    match lastLookup Prod.fst labelMap i.taxon_id with
    | none => none
    | some p =>
      (buildAnnos labelMap rest).map
        (fun r => ⟨p.2, i.observation_id, i.user_id, i.created_at, i.id⟩ :: r)

/-- Build the image entries; `none` models the `IndexError` of `urls[0]`
on an observation with no photos. -/
def buildImages (photos : List ObsPhoto) : List Obs → Option (List ImageRec)
  | [] => some []
  | ob :: rest =>
    let urls := (photos.filter (fun p => p.observation_id == ob.id)).map
      (fun p => p.native_original_image_url)
    match urls with
    | [] => none
    | u :: _ => (buildImages photos rest).map (fun r => ⟨ob.id, ob.created_at, u, urls⟩ :: r)

/-- `dataset_old.create_dataset(leaf_taxa_priors)`: the prior mapping is
an association list standing for a Python dict (callers build it from a
dict, so its keys are distinct); class labels enumerate the mapping's
keys in insertion order. -/
def create_dataset (priors : List (Int × ℚ)) (s : Store) : Option DatasetOldOut :=
  let labelMap := priors.enum.map (fun p => (p.2.1, p.1))
  match buildImages s.observation_photos s.observations,
        buildAnnos labelMap s.identifications with
  | some imgs, some annos =>
    some { num_classes := (firstDedup (priors.map Prod.fst)).length,
           inat_taxon_id_to_class_label := labelMap,
           global_class_priors := priors.map Prod.snd,
           workers := firstDedup (s.identifications.map (fun i => i.user_id)),
           images := imgs,
           annos := annos }
  | _, _ => none

end DatasetOld

namespace DatasetTax

/-- A row of the pre-flattened `taxonomy.csv` (`parent` and `key` are not
numerically coerced by the loader except that `key` values in this data
are digit strings, coerced to `Int` here as the downstream
`int(d['key'])` use requires; `prob` and `leaf` are coerced numbers). -/
structure TaxTaxon where
  parent : Option String
  key : Int
  taxon_id : Int
  prob : ℚ
  leaf : Int
deriving DecidableEq, Repr

/-- The store of the `dataset_tax` variant (only the collections its
`create_dataset` reads are carried). -/
structure TaxStore where
  observations : List Obs
  identifications : List Iden
  taxa : List TaxTaxon
deriving DecidableEq, Repr

/-- One taxonomy entry of the produced dataset. -/
structure TaxonomyRec where
  parent : Option String
  key : Int
  prob : ℚ
deriving DecidableEq, Repr

/-- One produced annotation of the `dataset_tax` variant (the label is
`str(worker_label)`). -/
structure TaxAnno where
  label : String
  image_id : Int
  worker_id : Int
  created_at : String
  id : Int
deriving DecidableEq, Repr

/-- The interchange structure produced by `dataset_tax.create_dataset`:
labels map taxon ids to the taxonomy's `key` column and
`global_class_priors` is the prior mapping itself. -/
structure DatasetTaxOut where
  num_classes : Nat
  inat_taxon_id_to_class_label : List (Int × Int)
  global_class_priors : List (Int × ℚ)
  taxonomy_data : List TaxonomyRec
  workers : List Int
  images : List Int
  annos : List TaxAnno
deriving DecidableEq, Repr

/-- Build the annotations; `none` models the `assert False` on an
identification whose taxon is not in the taxonomy. -/
def buildAnnosTax (labelMap : List (Int × Int)) : List Iden → Option (List TaxAnno)
  | [] => some []
  | i :: rest =>
    match lastLookup Prod.fst labelMap i.taxon_id with
    | none => none
    | some p =>
      (buildAnnosTax labelMap rest).map
        (fun r => ⟨toString p.2, i.observation_id, i.user_id, i.created_at, i.id⟩ :: r)

/-- `dataset_tax.create_dataset(leaf_taxa_priors)`. -/
def create_dataset (priors : List (Int × ℚ)) (s : TaxStore) : Option DatasetTaxOut :=
  let labelMap := s.taxa.map (fun t => (t.taxon_id, t.key))
  match buildAnnosTax labelMap s.identifications with
  | none => none
  | some annos =>
    some { num_classes := (firstDedup (priors.map Prod.fst)).length,
           inat_taxon_id_to_class_label := labelMap,
           global_class_priors := priors,
           taxonomy_data := s.taxa.map (fun t => ⟨t.parent, t.key, t.prob⟩),
           workers := firstDedup (s.identifications.map (fun i => i.user_id)),
           images := s.observations.map (fun ob => ob.id),
           annos := annos }

end DatasetTax

section HelperLemmas

theorem mem_firstDedupAux {seen l : List Int} {x : Int} :
    x ∈ firstDedupAux seen l ↔ x ∈ l ∧ x ∉ seen := by
  induction l generalizing seen with
  | nil => simp [firstDedupAux]
  | cons a l ih =>
    simp only [firstDedupAux]
    by_cases ha : a ∈ seen
    · rw [if_pos ha, ih]
      constructor
      · rintro ⟨hx, hs⟩
        exact ⟨List.mem_cons_of_mem _ hx, hs⟩
      · rintro ⟨hx, hs⟩
        rcases List.mem_cons.mp hx with rfl | hx'
        · exact absurd ha hs
        · exact ⟨hx', hs⟩
    · rw [if_neg ha]
      constructor
      · intro hmem
        rcases List.mem_cons.mp hmem with rfl | hmem'
        · exact ⟨List.mem_cons_self _ _, ha⟩
        · obtain ⟨hx, hs⟩ := ih.mp hmem'
          exact ⟨List.mem_cons_of_mem _ hx, fun h => hs (List.mem_cons_of_mem _ h)⟩
      · rintro ⟨hx, hs⟩
        rcases List.mem_cons.mp hx with rfl | hx'
        · exact List.mem_cons_self _ _
        · by_cases hxa : x = a
          · exact hxa ▸ List.mem_cons_self _ _
          · refine List.mem_cons_of_mem _ (ih.mpr ⟨hx', ?_⟩)
            intro hmem
            rcases List.mem_cons.mp hmem with h' | h'
            · exact hxa h'
            · exact hs h'

theorem mem_firstDedup {l : List Int} {x : Int} : x ∈ firstDedup l ↔ x ∈ l := by
  simp [firstDedup, mem_firstDedupAux]

theorem firstDedupAux_length_le {seen l : List Int} :
    (firstDedupAux seen l).length ≤ l.length := by
  induction l generalizing seen with
  | nil => simp [firstDedupAux]
  | cons a l ih =>
    simp only [firstDedupAux]
    by_cases ha : a ∈ seen
    · simp only [if_pos ha, List.length_cons]
      exact Nat.le_succ_of_le ih
    · simp only [if_neg ha, List.length_cons]
      exact Nat.succ_le_succ ih

theorem firstDedupAux_length_eq {seen l : List Int} :
    (firstDedupAux seen l).length = l.length ↔ l.Nodup ∧ ∀ x ∈ l, x ∉ seen := by
  induction l generalizing seen with
  | nil => simp [firstDedupAux]
  | cons a l ih =>
    simp only [firstDedupAux]
    by_cases ha : a ∈ seen
    · simp only [if_pos ha, List.length_cons]
      constructor
      · intro h
        have hle := @firstDedupAux_length_le seen l
        omega
      · rintro ⟨_, hall⟩
        exact absurd ha (hall a (List.mem_cons_self a l))
    · simp only [if_neg ha, List.length_cons, Nat.succ_inj, ih, List.nodup_cons]
      constructor
      · rintro ⟨hnd, hall⟩
        refine ⟨⟨fun hmem => (hall a hmem (List.mem_cons_self a seen)), hnd⟩, ?_⟩
        intro x hx hxs
        rcases List.mem_cons.mp hx with rfl | hx'
        · exact ha hxs
        · exact hall x hx' (List.mem_cons_of_mem _ hxs)
      · rintro ⟨⟨hna, hnd⟩, hall⟩
        refine ⟨hnd, ?_⟩
        intro x hx hxs
        rcases List.mem_cons.mp hxs with rfl | hxs'
        · exact hna hx
        · exact hall x (List.mem_cons_of_mem _ hx) hxs'

theorem firstDedup_length_eq {l : List Int} :
    (firstDedup l).length = l.length ↔ l.Nodup := by
  simp [firstDedup, firstDedupAux_length_eq]

theorem lastLookup_eq_some {α : Type} {key : α → Int} {l : List α} {k : Int} {x : α} :
    lastLookup key l k = some x → x ∈ l ∧ key x = k := by
  induction l with
  | nil => simp [lastLookup]
  | cons a l ih =>
    simp only [lastLookup]
    cases h : lastLookup key l k with
    | some y =>
      intro h2
      cases h2
      obtain ⟨hm, hk⟩ := ih h
      exact ⟨List.mem_cons_of_mem _ hm, hk⟩
    | none =>
      by_cases hka : key a = k
      · simp only [if_pos hka]
        intro h2
        cases h2
        exact ⟨List.mem_cons_self _ _, hka⟩
      · simp [if_neg hka]

theorem lastLookup_eq_none {α : Type} {key : α → Int} {l : List α} {k : Int} :
    lastLookup key l k = none ↔ ∀ x ∈ l, key x ≠ k := by
  induction l with
  | nil => simp [lastLookup]
  | cons a l ih =>
    simp only [lastLookup]
    cases h : lastLookup key l k with
    | some y =>
      simp only [reduceCtorEq, false_iff]
      intro hall
      obtain ⟨hm, hk⟩ := lastLookup_eq_some h
      exact hall y (List.mem_cons_of_mem _ hm) hk
    | none =>
      by_cases hka : key a = k
      · simp only [if_pos hka, reduceCtorEq, false_iff]
        intro hall
        exact hall a (List.mem_cons_self _ _) hka
      · simp only [if_neg hka, List.mem_cons, true_iff]
        intro x hx
        rcases hx with rfl | hx
        · exact hka
        · exact ih.mp h x hx

theorem lastLookup_isSome {α : Type} {key : α → Int} {l : List α} {k : Int}
    (h : ∃ x ∈ l, key x = k) : (lastLookup key l k).isSome := by
  cases hl : lastLookup key l k with
  | some y => rfl
  | none =>
    obtain ⟨x, hx, hk⟩ := h
    exact absurd hk (lastLookup_eq_none.mp hl x hx)

theorem lastLookup_of_nodup {α : Type} {key : α → Int} {l : List α} {x : α}
    (hnd : (l.map key).Nodup) (hx : x ∈ l) : lastLookup key l (key x) = some x := by
  induction l with
  | nil => exact absurd hx (List.not_mem_nil x)
  | cons a l ih =>
    simp only [List.map_cons, List.nodup_cons] at hnd
    obtain ⟨hna, hnd'⟩ := hnd
    rcases List.mem_cons.mp hx with rfl | hx'
    · have hnone : lastLookup key l (key x) = none := by
        rw [lastLookup_eq_none]
        intro y hy hk
        exact hna (hk ▸ List.mem_map_of_mem key hy)
      simp [lastLookup, hnone]
    · have hsome := ih hnd' hx'
      simp [lastLookup, hsome]

end HelperLemmas

section ConstructorLemmas

/-- Every taxon surviving the sanity preamble has a float `rank_level`. -/
theorem initKeptTaxa_rank_num {observations : List Obs} {taxa : List Taxon} :
    ∀ t ∈ DatasetOld.initKeptTaxa observations taxa, ∃ q : ℚ, t.rank_level = PyVal.num q := by
  intro t ht
  simp only [DatasetOld.initKeptTaxa, List.mem_filterMap] at ht
  obtain ⟨t0, _, ht0⟩ := ht
  split at ht0
  · exact absurd ht0 (by simp)
  · split at ht0
    · cases ht0
      exact ⟨_, rfl⟩
    · exact absurd ht0 (by simp)

/-- A successfully constructed store carries exactly the preamble's taxa. -/
theorem init_taxa_eq {observations : List Obs} {photos : List ObsPhoto}
    {idens : List Iden} {taxa : List Taxon} {users : List Int} {s : Store}
    (h : DatasetOld.iNaturalistDataset_init observations photos idens taxa users = some s) :
    s.taxa = DatasetOld.initKeptTaxa observations taxa := by
  unfold DatasetOld.iNaturalistDataset_init at h
  split at h
  · exact absurd h (by simp)
  · split at h
    · cases h
      rfl
    · exact absurd h (by simp)

end ConstructorLemmas

section ClaimC10

/-- The store used in the witness of claim C10. -/
def c10obs : List Obs := [⟨1, 0, some 1, ""⟩]

/-- The taxa handed to the constructor in the witness of claim C10: a
species-rank taxon whose `rank_level` is still the loaded string. -/
def c10taxa : List Taxon := [⟨1, none, PyVal.str "10", true⟩]

/-- The identifications handed to the constructor in the witness of
claim C10. -/
def c10idens : List Iden := [⟨100, 1, 5, 1, "", true⟩]

/-- C10: for every store produced by the constructor (whose sanity pass
converts every surviving taxon's `rank_level` to a float), calling
`create_flat_taxonomy` with its default argument — the string `'10'` —
removes every taxon, and consequently every identification, because a
float `rank_level` never compares equal to the string `'10'`. -/
theorem c10_default_flat_taxonomy_empties_store
    (observations : List Obs) (photos : List ObsPhoto) (idens : List Iden)
    (taxa : List Taxon) (users : List Int) (s : Store)
    (h : DatasetOld.iNaturalistDataset_init observations photos idens taxa users = some s) :
    (DatasetOld.create_flat_taxonomy (PyVal.str "10") s).taxa = [] ∧
    (DatasetOld.create_flat_taxonomy (PyVal.str "10") s).identifications = [] := by
  have hnum : ∀ t ∈ s.taxa, ∃ q : ℚ, t.rank_level = PyVal.num q := by
    rw [init_taxa_eq h]
    exact initKeptTaxa_rank_num
  have htaxa : s.taxa.filter (fun t => pyEq t.rank_level (PyVal.str "10")) = [] := by
    rw [List.filter_eq_nil_iff]
    intro t ht
    obtain ⟨q, hq⟩ := hnum t ht
    simp [hq, pyEq]
  constructor
  · simpa [DatasetOld.create_flat_taxonomy] using htaxa
  · simp [DatasetOld.create_flat_taxonomy, htaxa]

/-- Witness for C10 at a concrete constructed store: the rank string
`"10"` is parsed to the float `10` by the sanity pass, and the default
flat-taxonomy call then empties the store. -/
theorem c10_witness :
    (DatasetOld.create_flat_taxonomy (PyVal.str "10")
      ⟨c10obs, [], c10idens, [⟨1, none, PyVal.num 10, true⟩], []⟩).taxa = [] ∧
    (DatasetOld.create_flat_taxonomy (PyVal.str "10")
      ⟨c10obs, [], c10idens, [⟨1, none, PyVal.num 10, true⟩], []⟩).identifications = [] :=
  c10_default_flat_taxonomy_empties_store c10obs [] c10idens c10taxa []
    ⟨c10obs, [], c10idens, [⟨1, none, PyVal.num 10, true⟩], []⟩ (by decide)

end ClaimC10

section ClaimC2

/-- Observations of the C2 failing input. -/
def c2obs : List Obs := [⟨1, 0, some 1, ""⟩]

/-- Taxa of the C2 failing input (well-formed, referenced, numeric rank). -/
def c2taxa : List Taxon := [⟨1, none, PyVal.num 10, true⟩]

/-- Identifications of the C2 failing input: two adjacent identifications
whose `taxon_id` 99 resolves to no taxon. -/
def c2idens : List Iden := [⟨100, 1, 5, 99, "", true⟩, ⟨101, 1, 5, 99, "", true⟩]

/-- C2 (code bug): the sanity pass mutates the identification list with
`list.remove` while iterating over it, so removing the first dangling
identification makes the loop skip the adjacent second one; construction
completes (the uniqueness assertions pass) but the surviving
identification id 101 still has the unresolvable `taxon_id` 99,
contradicting the intended postcondition that no dangling identification
remains. -/
theorem c2_sanity_keeps_adjacent_dangler :
    (DatasetOld.iNaturalistDataset_init c2obs [] c2idens c2taxa []).map
      (fun s => (s.identifications.map (fun i => i.id),
                 s.identifications.all (fun i => taxResolves s i)))
    = some ([101], false) := by decide

end ClaimC2

section ClaimC3

/-- The store of the C3 counterexample: one observation with one photo. -/
def c3store : Store := ⟨[⟨1, 0, none, ""⟩], [⟨1, "u"⟩], [], [], []⟩

/-- C3 counterexample: `keep_specific_observations` with an empty keep
set removes the only observation, yet its photo remains in
`observation_photos`, so the surviving photo's `observation_id` resolves
to no surviving observation — the claimed cascade to photos does not
happen. -/
theorem c3_counterexample :
    ((DatasetOld.keep_specific_observations [] c3store).observation_photos.all
      (fun p => (DatasetOld.keep_specific_observations [] c3store).observations.any
        (fun ob => ob.id == p.observation_id))) = false := by decide

/-- C3 amended: no observation-removing operation touches the
`observation_photos` collection at all — photos of removed observations
remain (the cascade to photos is conceptual only, never implemented). -/
theorem c3_photos_never_removed
    (s : Store) (ids : List Int) (m : Int) (mo : Option Int) (chosen : List Int) :
    (DatasetOld.keep_specific_observations ids s).observation_photos = s.observation_photos ∧
    (DatasetOld.remove_obs_with_no_photos s).observation_photos = s.observation_photos ∧
    (∀ s1, DatasetOld.enforce_min_identifications m s = some s1 →
      s1.observation_photos = s.observation_photos) ∧
    (∀ s1, DatasetOld.enforce_max_observations mo chosen s = some s1 →
      s1.observation_photos = s.observation_photos) := by
  refine ⟨rfl, rfl, ?_, ?_⟩
  · intro s1 h
    unfold DatasetOld.enforce_min_identifications at h
    split at h
    · exact absurd h (by simp)
    · cases h
      rfl
  · intro s1 h
    unfold DatasetOld.enforce_max_observations at h
    split at h
    · cases h; rfl
    · split at h
      · cases h; rfl
      · split at h
        · exact absurd h (by simp)
        · cases h; rfl

/-- Witness for C3's amended theorem at the counterexample store. -/
theorem c3_witness :
    (DatasetOld.keep_specific_observations [] c3store).observation_photos =
      c3store.observation_photos ∧
    c3store.observation_photos = c3store.observation_photos :=
  ⟨(c3_photos_never_removed c3store [] 0 none []).1,
   (c3_photos_never_removed c3store [] 0 none []).2.2.1 c3store (by decide)⟩

end ClaimC3

section ClaimC7
section ClaimC7

/-- Refiltering with the same predicate changes nothing. -/
theorem filter_idem {α : Type} (p : α → Bool) (l : List α) :
    (l.filter p).filter p = l.filter p := by
  rw [List.filter_eq_self]
  intro a ha
  exact (List.mem_filter.mp ha).2

/-- `List.contains` on `Int` is membership. -/
theorem contains_int_iff {l : List Int} {x : Int} : l.contains x = true ↔ x ∈ l := by
  induction l with
  | nil => simp
  | cons a l ih =>
    simp only [List.contains_cons, Bool.or_eq_true, beq_iff_eq, List.mem_cons, ih]

/-- C7: `remove_non_active_taxa` and `remove_obs_with_no_photos` are
idempotent on every store, and a second `enforce_min_identifications`
with the same argument immediately after a completed first run returns
the first run's store unchanged (collections equal, hence also the index
maps, which are functions of the collections). -/
theorem c7_idempotence (s : Store) (m : Int) :
    DatasetOld.remove_non_active_taxa (DatasetOld.remove_non_active_taxa s) =
      DatasetOld.remove_non_active_taxa s ∧
    DatasetOld.remove_obs_with_no_photos (DatasetOld.remove_obs_with_no_photos s) =
      DatasetOld.remove_obs_with_no_photos s ∧
    (∀ s1, DatasetOld.enforce_min_identifications m s = some s1 →
      DatasetOld.enforce_min_identifications m s1 = some s1) := by
  refine ⟨?_, ?_, ?_⟩
  · -- remove_non_active_taxa
    unfold DatasetOld.remove_non_active_taxa
    dsimp only
    have h2 : ((s.taxa.filter (fun t => !((s.taxa.filter (fun t => !t.is_active)).map
        (fun t => t.id)).contains t.id)).filter (fun t => !t.is_active)) = [] := by
      rw [List.filter_eq_nil_iff]
      intro t ht hna
      rw [List.mem_filter] at ht
      obtain ⟨htm, htc⟩ := ht
      have hmem : t.id ∈ (s.taxa.filter (fun t => !t.is_active)).map (fun t => t.id) :=
        List.mem_map_of_mem _ (List.mem_filter.mpr ⟨htm, hna⟩)
      have hcontains := contains_int_iff.mpr hmem
      rw [hcontains] at htc
      simp at htc
    rw [h2]
    simp [List.filter_eq_self]
  · -- remove_obs_with_no_photos
    unfold DatasetOld.remove_obs_with_no_photos
    dsimp only
    rw [filter_idem, filter_idem]
  · -- enforce_min_identifications
    intro s1 h
    unfold DatasetOld.enforce_min_identifications at h
    split at h
    · exact absurd h (by simp)
    · cases h
      unfold DatasetOld.enforce_min_identifications
      dsimp only
      rw [if_neg ?hres]
      case hres =>
        simp only [Bool.not_eq_true', Bool.not_eq_false]
        rw [List.all_eq_true]
        intro i hi
        rw [List.mem_filter] at hi
        exact hi.2
      have hO : (s.observations.filter
            (fun ob => (DatasetOld.minKeepIds m s).contains ob.id)).filter
          (fun ob => (DatasetOld.minKeepIds m
            { s with
              observations := s.observations.filter
                (fun ob => (DatasetOld.minKeepIds m s).contains ob.id),
              identifications := s.identifications.filter
                (fun i => (s.observations.filter
                  (fun ob => (DatasetOld.minKeepIds m s).contains ob.id)).any
                  (fun ob => ob.id == i.observation_id)) }).contains ob.id)
          = s.observations.filter (fun ob => (DatasetOld.minKeepIds m s).contains ob.id) := by
        rw [List.filter_eq_self]
        intro ob hob
        have hcnt : DatasetOld.cntIdens
            (s.identifications.filter
              (fun i => (s.observations.filter
                (fun ob2 => (DatasetOld.minKeepIds m s).contains ob2.id)).any
                (fun ob2 => ob2.id == i.observation_id))) ob.id
            = DatasetOld.cntIdens s.identifications ob.id := by
          unfold DatasetOld.cntIdens
          rw [List.filter_filter]
          apply congrArg
          apply List.filter_congr
          intro i _
          by_cases hio : i.observation_id = ob.id
          · have hany : (s.observations.filter
                (fun ob2 => (DatasetOld.minKeepIds m s).contains ob2.id)).any
                (fun ob2 => ob2.id == i.observation_id) = true := by
              rw [List.any_eq_true]
              exact ⟨ob, hob, by simp [hio]⟩
            rw [hany, Bool.and_true]
          · simp [hio]
        have hpred : decide ((DatasetOld.cntIdens s.identifications ob.id : Int) ≥ m) = true := by
          have hc := (List.mem_filter.mp hob).2
          rw [contains_int_iff] at hc
          unfold DatasetOld.minKeepIds at hc
          rw [List.mem_map] at hc
          obtain ⟨ob2, hob2, hid⟩ := hc
          rw [List.mem_filter] at hob2
          rw [show ob.id = ob2.id from hid.symm]
          exact hob2.2
        unfold DatasetOld.minKeepIds at hcnt ⊢
        rw [contains_int_iff, List.mem_map]
        refine ⟨ob, List.mem_filter.mpr ⟨?_, ?_⟩, rfl⟩
        · exact hob
        · dsimp only
          rw [hcnt]
          exact hpred
      rw [hO, filter_idem]

/-- The store of the C7 witness. -/
def c7store : Store := ⟨[⟨1, 0, none, ""⟩], [], [⟨100, 1, 5, 7, "", true⟩], [], []⟩

/-- Witness for C7 at a concrete store (discharging the completed-first-run
hypothesis of the `enforce_min_identifications` conjunct). -/
theorem c7_witness :
    DatasetOld.remove_non_active_taxa (DatasetOld.remove_non_active_taxa c7store) =
      DatasetOld.remove_non_active_taxa c7store ∧
    DatasetOld.enforce_min_identifications 1 c7store = some c7store :=
  ⟨(c7_idempotence c7store 1).1, (c7_idempotence c7store 1).2.2 c7store (by decide)⟩

end ClaimC7

section ClaimC9

/-- C9 counterexample store for the `dataset_tax` variant: the taxonomy
maps taxon id 7 to key 5. -/
def c9ts : DatasetTax.TaxStore := ⟨[], [], [⟨none, 5, 7, 1, 1⟩]⟩

/-- C9 counterexample priors: first (and only) key is taxon id 3. -/
def c9tsPriors : List (Int × ℚ) := [(3, 1)]

/-- C9 counterexample: in the `dataset_tax` variant the class label map
comes from the taxonomy's `key` column, not from the priors mapping: with
priors whose 0-th key is taxon 3, the produced map is `{7: 5}` and taxon 3
receives no label at all, so the claim's "i-th key receives label i for
both dataset-builder variants" is false. -/
theorem c9_counterexample :
    (DatasetTax.create_dataset c9tsPriors c9ts).map
      (fun d => (d.inat_taxon_id_to_class_label,
        lastLookup Prod.fst d.inat_taxon_id_to_class_label 3))
    = some ([(7, 5)], none) := by decide

/-- C9 amended: in the `dataset_old` variant, `create_dataset` assigns
the i-th key of the priors mapping label i, `num_classes` is the number
of entries, and `global_class_priors` lists the prior values in label
order; the `dataset_tax` variant instead takes its label map from the
taxonomy's `key` column and returns the prior mapping itself as
`global_class_priors` (only `num_classes` is computed from the priors). -/
theorem c9_label_assignment :
    (∀ (priors : List (Int × ℚ)) (s : Store) (d : DatasetOld.DatasetOldOut),
      (priors.map Prod.fst).Nodup →
      DatasetOld.create_dataset priors s = some d →
      d.num_classes = priors.length ∧
      d.global_class_priors = priors.map Prod.snd ∧
      (∀ n (hn : n < priors.length),
        lastLookup Prod.fst d.inat_taxon_id_to_class_label (priors.get ⟨n, hn⟩).1
          = some ((priors.get ⟨n, hn⟩).1, n))) ∧
    (∀ (priors : List (Int × ℚ)) (ts : DatasetTax.TaxStore) (d : DatasetTax.DatasetTaxOut),
      DatasetTax.create_dataset priors ts = some d →
      d.inat_taxon_id_to_class_label = ts.taxa.map (fun t => (t.taxon_id, t.key)) ∧
      d.global_class_priors = priors ∧
      d.num_classes = (firstDedup (priors.map Prod.fst)).length) := by
  constructor
  · intro priors s d hnd h
    unfold DatasetOld.create_dataset at h
    dsimp only at h
    split at h
    · cases h
      refine ⟨?_, rfl, ?_⟩
      · exact (firstDedup_length_eq.mpr (by simpa using hnd)).trans (List.length_map _ _)
      · intro n hn
        have hkeys : (priors.enum.map (fun p => (p.2.1, p.1))).map Prod.fst
            = priors.map Prod.fst := by
          rw [List.map_map]
          show priors.enum.map (fun p => p.2.1) = priors.map Prod.fst
          rw [show (fun p : Nat × (Int × ℚ) => p.2.1) = (Prod.fst ∘ Prod.snd) from rfl,
            ← List.map_map, List.enum_eq_enumFrom, List.enumFrom_map_snd]
        have hnd2 : ((priors.enum.map (fun p => (p.2.1, p.1))).map Prod.fst).Nodup := by
          rw [hkeys]; exact hnd
        have hlen : n < (priors.enum.map (fun p => (p.2.1, p.1))).length := by
          simpa using hn
        have hget : (priors.enum.map (fun p => (p.2.1, p.1))).get ⟨n, hlen⟩
            = ((priors.get ⟨n, hn⟩).1, n) := by
          simp [List.get_eq_getElem, List.getElem_map, List.getElem_enum]
        have hmem : ((priors.get ⟨n, hn⟩).1, n) ∈ priors.enum.map (fun p => (p.2.1, p.1)) := by
          rw [← hget]
          exact List.get_mem _ _ _
        have hlook := lastLookup_of_nodup hnd2 hmem
        exact hlook
    · exact absurd h (by simp)
  · intro priors ts d h
    unfold DatasetTax.create_dataset at h
    dsimp only at h
    split at h
    · exact absurd h (by simp)
    · cases h
      exact ⟨rfl, rfl, rfl⟩

/-- The concrete `dataset_old` store of the C9 witness. -/
def c9sOld : Store :=
  ⟨[⟨1, 0, none, "t"⟩], [⟨1, "u"⟩], [⟨100, 1, 5, 7, "c", true⟩],
   [⟨7, none, PyVal.num 10, true⟩], []⟩

/-- The priors mapping of the C9 witness. -/
def c9p : List (Int × ℚ) := [(7, 1/2), (8, 1/2)]

/-- The dataset `create_dataset` produces in the C9 witness. -/
def c9dOld : DatasetOld.DatasetOldOut :=
  ⟨2, [(7, 0), (8, 1)], [1/2, 1/2], [5], [⟨1, "t", "u", ["u"]⟩], [⟨0, 1, 5, "c", 100⟩]⟩

/-- Witness for C9's amended theorem at concrete inputs. -/
theorem c9_witness :
    c9dOld.num_classes = c9p.length ∧
    lastLookup Prod.fst c9dOld.inat_taxon_id_to_class_label (c9p.get ⟨0, by decide⟩).1
      = some ((c9p.get ⟨0, by decide⟩).1, 0) := by
  have h := c9_label_assignment.1 c9p c9sOld c9dOld (by decide) (by decide)
  exact ⟨h.1, h.2.2 0 (by decide)⟩

end ClaimC9

section ClaimC5

/-- Community ids collected by `estimate_taxa_priors` all lie in the
working set. -/
theorem communityIds_keep {obs : List Obs} {keep : Int → Bool} :
    ∀ {l : List Iden} {cids : List Int},
      DatasetOld.communityIds obs keep l = some cids → ∀ c ∈ cids, keep c = true := by
  intro l
  induction l with
  | nil =>
    intro cids h
    simp only [DatasetOld.communityIds] at h
    cases h
    simp
  | cons i rest ih =>
    intro cids h
    simp only [DatasetOld.communityIds] at h
    split at h
    · exact absurd h (by simp)
    · split at h
      · exact ih h
      · split at h
        · rename_i hkeep
          cases hc2 : DatasetOld.communityIds obs keep rest with
          | none => rw [hc2] at h; exact absurd h (by simp)
          | some cids2 =>
            rw [hc2] at h
            simp only [Option.map_some'] at h
            cases h
            intro c hc
            rcases List.mem_cons.mp hc with rfl | hc'
            · exact hkeep
            · exact ih hc2 c hc'
        · exact ih h

/-- Membership in the working list is exactly working-set membership. -/
theorem mem_workingList {idens : List Iden} {extra : Option (List Int)} {t : Int} :
    t ∈ DatasetOld.workingList idens extra ↔
      DatasetOld.workingMem idens extra t = true := by
  unfold DatasetOld.workingList DatasetOld.workingMem
  rw [mem_firstDedup, List.mem_append]
  constructor
  · rintro (hm | hm)
    · rw [List.mem_map] at hm
      obtain ⟨i, hi, rfl⟩ := hm
      have : idens.any (fun i2 => i2.taxon_id == i.taxon_id) = true :=
        List.any_eq_true.mpr ⟨i, hi, by simp⟩
      simp [this]
    · cases extra with
      | none => simp at hm
      | some l =>
        simp only [Option.getD_some] at hm
        simp [hm]
  · intro hm
    rw [Bool.or_eq_true] at hm
    rcases hm with hm | hm
    · rw [List.any_eq_true] at hm
      obtain ⟨i, hi, hbeq⟩ := hm
      rw [beq_iff_eq] at hbeq
      exact Or.inl (hbeq ▸ List.mem_map_of_mem _ hi)
    · cases extra with
      | none => simp at hm
      | some l =>
        simp only at hm
        exact Or.inr (by simpa using contains_int_iff.mp hm)

/-- Casting the sum of the count components of entry pairs to ℚ. -/
theorem natCast_sum_snd (entries : List (Int × ℕ)) :
    (entries.map (fun p => ((p.2 : ℕ) : ℚ))).sum
      = (((entries.map (fun p => p.2)).sum : ℕ) : ℚ) := by
  induction entries with
  | nil => simp
  | cons a l ih => simp [ih]

/-- C5 amended: whenever `estimate_taxa_priors` returns (no identification
has a dangling observation reference) and the working set is nonempty, the
returned mapping's key set is exactly the working set (identification
taxa united with the extra ids), every probability is strictly positive,
and the probabilities sum to 1; on an empty working set the code instead
returns an empty mapping (see the counterexample). -/
theorem c5_priors_smoothing (s : Store) (extra : Option (List Int)) (res : List (Int × ℚ))
    (h : DatasetOld.estimate_taxa_priors extra s = some res)
    (hne : DatasetOld.workingList s.identifications extra ≠ []) :
    (∀ t : Int, t ∈ res.map Prod.fst ↔
      DatasetOld.workingMem s.identifications extra t = true) ∧
    (∀ p ∈ res, 0 < p.2) ∧
    (res.map Prod.snd).sum = 1 := by
  unfold DatasetOld.estimate_taxa_priors at h
  rcases hc : DatasetOld.communityIds s.observations
      (DatasetOld.workingMem s.identifications extra) s.identifications with _ | cids
  · rw [hc] at h; exact absurd h (by simp)
  rw [hc] at h
  dsimp only at h
  cases h
  set counts := DatasetOld.counterList cids with hcounts
  set missing := ((DatasetOld.workingList s.identifications extra).filter
    (fun t => !counts.any (fun p => p.1 == t))).map (fun t => (t, 1)) with hmissing
  set entries := counts ++ missing with hentries
  -- every entry key is in the working set, every entry count is positive
  have hkey : ∀ p ∈ entries, DatasetOld.workingMem s.identifications extra p.1 = true ∧ 1 ≤ p.2 := by
    intro p hp
    rcases List.mem_append.mp hp with hp | hp
    · rw [hcounts] at hp
      unfold DatasetOld.counterList at hp
      rw [List.mem_map] at hp
      obtain ⟨k, hk, rfl⟩ := hp
      rw [mem_firstDedup] at hk
      refine ⟨communityIds_keep hc k hk, ?_⟩
      exact List.count_pos_iff.mpr hk
    · rw [hmissing, List.mem_map] at hp
      obtain ⟨t, ht, rfl⟩ := hp
      rw [List.mem_filter] at ht
      exact ⟨mem_workingList.mp ht.1, le_refl 1⟩
  -- the working set is contained in the entry keys
  have hcover : ∀ t ∈ DatasetOld.workingList s.identifications extra,
      ∃ p ∈ entries, p.1 = t := by
    intro t ht
    by_cases hin : counts.any (fun p => p.1 == t) = true
    · rw [List.any_eq_true] at hin
      obtain ⟨p, hp, hbeq⟩ := hin
      exact ⟨p, List.mem_append_left _ hp, by rwa [beq_iff_eq] at hbeq⟩
    · refine ⟨(t, 1), List.mem_append_right _ ?_, rfl⟩
      rw [hmissing, List.mem_map]
      refine ⟨t, ?_, rfl⟩
      rw [List.mem_filter]
      exact ⟨ht, by simp [hin]⟩
  -- entries are nonempty, so the total is positive
  have hnonempty : entries ≠ [] := by
    obtain ⟨t, ht⟩ := List.exists_mem_of_ne_nil _ hne
    obtain ⟨p, hp, _⟩ := hcover t ht
    exact List.ne_nil_of_mem hp
  have htotpos : 0 < ((entries.map (fun p => p.2)).sum : ℕ) := by
    obtain ⟨p, hp⟩ := List.exists_mem_of_ne_nil _ hnonempty
    have h1 : 1 ≤ p.2 := (hkey p hp).2
    have h2 : p.2 ≤ (entries.map (fun p => p.2)).sum :=
      List.le_sum_of_mem (List.mem_map_of_mem _ hp)
    omega
  have htotQ : (0 : ℚ) < (((entries.map (fun p => p.2)).sum : ℕ) : ℚ) := by
    exact_mod_cast htotpos
  refine ⟨?_, ?_, ?_⟩
  · -- key set
    intro t
    rw [List.map_map]
    constructor
    · intro hm
      rw [List.mem_map] at hm
      obtain ⟨p, hp, hpt⟩ := hm
      have := (hkey p hp).1
      simpa [← hpt] using this
    · intro hm
      have ht : t ∈ DatasetOld.workingList s.identifications extra := mem_workingList.mpr hm
      obtain ⟨p, hp, hpt⟩ := hcover t ht
      rw [List.mem_map]
      exact ⟨p, hp, by simpa using hpt⟩
  · -- positivity
    intro p hp
    rw [List.mem_map] at hp
    obtain ⟨q, hq, rfl⟩ := hp
    have h1 : (1 : ℚ) ≤ (q.2 : ℚ) := by exact_mod_cast (hkey q hq).2
    exact div_pos (lt_of_lt_of_le one_pos h1) htotQ
  · -- normalization
    rw [List.map_map]
    have hmap : entries.map (Prod.snd ∘ fun p => (p.1, (p.2 : ℚ) /
        (((entries.map (fun p => p.2)).sum : ℕ) : ℚ)))
        = entries.map (fun p => (p.2 : ℚ) *
          ((((entries.map (fun p => p.2)).sum : ℕ) : ℚ))⁻¹) := by
      apply List.map_congr_left
      intro p _
      simp [div_eq_mul_inv]
    rw [hmap, List.sum_map_mul_right, natCast_sum_snd]
    exact mul_inv_cancel₀ (ne_of_gt htotQ)

/-- The store of C5's counterexample and witness. -/
def c5store : Store :=
  ⟨[⟨1, 0, some 10, ""⟩, ⟨2, 0, some 10, ""⟩, ⟨3, 0, some 10, ""⟩, ⟨4, 0, some 20, ""⟩], [],
   [⟨100, 1, 5, 10, "", true⟩, ⟨101, 2, 5, 10, "", true⟩,
    ⟨102, 3, 5, 20, "", true⟩, ⟨103, 4, 5, 20, "", true⟩], [], []⟩

/-- C5 counterexample: on a store with no identifications and no extra
ids, `estimate_taxa_priors` returns the empty mapping, whose
probabilities sum to 0, not 1 — the claim's "the returned probabilities
sum to 1 for every store" fails on the empty working set. -/
theorem c5_counterexample :
    ((DatasetOld.estimate_taxa_priors none ⟨[], [], [], [], []⟩).map
      (fun r => (r.map Prod.snd).sum)) = some 0 ∧ (0 : ℚ) ≠ 1 := by
  constructor
  · decide
  · norm_num

/-- Witness for C5: the concrete smoothing example (counts 3 and 1 with
one unseen taxon gives priors 3/5, 1/5, 1/5), whose probabilities sum
to 1 by the amended theorem. -/
theorem c5_witness :
    DatasetOld.estimate_taxa_priors (some [30]) c5store
      = some [(10, 3/5), (20, 1/5), (30, 1/5)] ∧
    (([(10, (3:ℚ)/5), (20, 1/5), (30, 1/5)]).map Prod.snd).sum = 1 :=
  ⟨by decide,
   (c5_priors_smoothing c5store (some [30]) [(10, 3/5), (20, 1/5), (30, 1/5)]
     (by decide) (by decide)).2.2⟩

end ClaimC5

section ClaimC6

/-- The C6 counterexample store: its single current identification's
`observation_id` 999 resolves to no observation. -/
def c6store : Store :=
  ⟨[⟨1, 0, none, ""⟩], [], [⟨10, 999, 7, 1, "", true⟩], [⟨1, none, PyVal.num 10, true⟩], []⟩

/-- C6 counterexample: every observation's surviving current
identifications have pairwise-distinct users (the only observation's
group is empty), yet `keep_current_identifications` does not complete —
it raises a `KeyError` while grouping the dangling current
identification — so the claim's converse ("the operation completes and
keeps exactly the current identifications") fails as stated. -/
theorem c6_counterexample :
    DatasetOld.keep_current_identifications c6store = none ∧
    (((c6store.identifications.filter (fun i => i.current)).filter
      (fun i => i.observation_id == (1 : Int))).map (fun i => i.user_id)).Nodup := by
  constructor
  · decide
  · decide

/-- C6 amended: two current identifications from one user on one stored
observation make `keep_current_identifications` fail (it never silently
keeps or deduplicates them); conversely, when every surviving current
identification's observation resolves and each observation's surviving
current identifications have pairwise-distinct users, the operation
completes and keeps exactly the identifications whose `current` flag is
true. -/
theorem c6_duplicate_current_fatal :
    (∀ (s : Store) (i1 i2 : Iden) (ob : Obs),
      ob ∈ s.observations →
      [i1, i2].Sublist s.identifications →
      i1.current = true → i2.current = true →
      i1.user_id = i2.user_id →
      i1.observation_id = ob.id → i2.observation_id = ob.id →
      DatasetOld.keep_current_identifications s = none) ∧
    (∀ s : Store,
      (∀ i ∈ s.identifications, i.current = true → obResolves s i = true) →
      (∀ ob ∈ s.observations,
        (((s.identifications.filter (fun i => i.current)).filter
          (fun i => i.observation_id == ob.id)).map (fun i => i.user_id)).Nodup) →
      DatasetOld.keep_current_identifications s
        = some { s with identifications := s.identifications.filter (fun i => i.current) }) := by
  constructor
  · intro s i1 i2 ob hob hsub h1c h2c huser h1o h2o
    unfold DatasetOld.keep_current_identifications
    dsimp only
    split
    · rfl
    · split
      · rename_i hall
        exfalso
        rw [List.all_eq_true] at hall
        have hcheck := hall ob hob
        have hsub1 : [i1, i2].Sublist (s.identifications.filter (fun i => i.current)) := by
          have := List.Sublist.filter (fun i => i.current) hsub
          rwa [show [i1, i2].filter (fun i => i.current) = [i1, i2] by
            simp [List.filter, h1c, h2c]] at this
        have hsub2 : [i1, i2].Sublist ((s.identifications.filter (fun i => i.current)).filter
            (fun i => i.observation_id == ob.id)) := by
          have := List.Sublist.filter (fun i => i.observation_id == ob.id) hsub1
          rwa [show [i1, i2].filter (fun i => i.observation_id == ob.id) = [i1, i2] by
            simp [List.filter, h1o, h2o]] at this
        have hsub3 : [i1.user_id, i2.user_id].Sublist
            (((s.identifications.filter (fun i => i.current)).filter
              (fun i => i.observation_id == ob.id)).map (fun i => i.user_id)) := by
          have := List.Sublist.map (fun i => i.user_id) hsub2
          simpa using this
        have hnotnodup : ¬ (((s.identifications.filter (fun i => i.current)).filter
            (fun i => i.observation_id == ob.id)).map (fun i => i.user_id)).Nodup := by
          intro hnd
          have := hnd.sublist hsub3
          rw [huser] at this
          simp at this
        rw [beq_iff_eq] at hcheck
        have hlen2 : (firstDedup (((s.identifications.filter
            (fun i => i.current)).filter (fun i => i.observation_id == ob.id)).map
            (fun i => i.user_id))).length
            = (((s.identifications.filter (fun i => i.current)).filter
              (fun i => i.observation_id == ob.id)).map (fun i => i.user_id)).length := by
          rw [hcheck, List.length_map]
        rw [firstDedup_length_eq] at hlen2
        exact hnotnodup hlen2
      · rfl
  · intro s hres hnd
    unfold DatasetOld.keep_current_identifications
    dsimp only
    rw [if_neg ?hc1, if_pos ?hc2]
    case hc1 =>
      simp only [Bool.not_eq_true', Bool.not_eq_false]
      rw [List.all_eq_true]
      intro i hi
      rw [List.mem_filter] at hi
      exact hres i hi.1 hi.2
    case hc2 =>
      rw [List.all_eq_true]
      intro ob hob
      have hnodup := hnd ob hob
      rw [List.filter_filter] at hnodup
      have heq : (firstDedup ((s.identifications.filter
          (fun a => a.observation_id == ob.id && a.current)).map (fun i => i.user_id))).length
          = (s.identifications.filter
            (fun a => a.observation_id == ob.id && a.current)).length :=
        (firstDedup_length_eq.mpr hnodup).trans (List.length_map _ _)
      simp [heq]

/-- Stores of the C6 witness: a duplicate-current store and a clean one. -/
def c6dup : Store :=
  ⟨[⟨1, 0, none, ""⟩], [],
   [⟨10, 1, 7, 1, "", true⟩, ⟨11, 1, 7, 1, "", true⟩],
   [⟨1, none, PyVal.num 10, true⟩], []⟩

/-- The clean store of the C6 witness (one current, one non-current
identification). -/
def c6ok : Store :=
  ⟨[⟨1, 0, none, ""⟩], [],
   [⟨10, 1, 7, 1, "", true⟩, ⟨11, 1, 8, 1, "", false⟩],
   [⟨1, none, PyVal.num 10, true⟩], []⟩

/-- Witness for C6 at concrete stores: the duplicate store fails, the
clean store completes keeping exactly the current identification. -/
theorem c6_witness :
    DatasetOld.keep_current_identifications c6dup = none ∧
    DatasetOld.keep_current_identifications c6ok
      = some { c6ok with identifications := c6ok.identifications.filter (fun i => i.current) } :=
  ⟨c6_duplicate_current_fatal.1 c6dup ⟨10, 1, 7, 1, "", true⟩ ⟨11, 1, 7, 1, "", true⟩
      ⟨1, 0, none, ""⟩ (by decide) (by decide) (by decide) (by decide) (by decide)
      (by decide) (by decide),
   c6_duplicate_current_fatal.2 c6ok (by decide) (by decide)⟩

end ClaimC6

section ClaimC4

/-- The three-level taxonomy of claim C4: species (id 3, rank 10,
ancestry "1/2"), genus (id 2, rank 20, ancestry "1"), family (id 1,
rank 30). -/
def c4taxa : List Taxon :=
  [⟨3, some "1/2", PyVal.num 10, true⟩,
   ⟨2, some "1", PyVal.num 20, true⟩,
   ⟨1, some "", PyVal.num 30, true⟩]

/-- The C4 counterexample store: an identification with unresolvable
taxon id 99 immediately followed by a species identification. -/
def c4cex : Store :=
  ⟨[⟨1, 0, none, ""⟩], [],
   [⟨100, 1, 5, 99, "", true⟩, ⟨101, 1, 5, 3, "", true⟩], c4taxa, []⟩

/-- C4 counterexample: collapsing the claim's 3-level taxonomy to rank 20
on a store whose identification list holds a dangling identification
right before a species identification completes, removes the species
taxon from the taxa collection, but leaves the species identification
unrewritten (still taxon id 3): removing the dangling identification with
`list.remove` during iteration skips the species identification, so the
claim's "rewrites every identification whose taxon_id was the species id"
fails as stated. -/
theorem c4_counterexample :
    (DatasetOld.set_rank_level_as_leaf_level 20 c4cex).map
      (fun s => (s.identifications.map (fun i => i.taxon_id), s.taxa.map (fun t => t.id)))
    = some ([3], [2, 1]) := by decide

/-- When every identification's taxon id is either below the target rank
with a defined remap entry or known to the rank map, the rewriting loop
never removes anything: it is a pure map rewriting the lower-rank
identifications to their remap targets. -/
theorem remapScan_all_resolved (lower known : Int → Bool) (remapF : Int → Option Int)
    (l : List Iden)
    (hlk : ∀ x ∈ l, lower x.taxon_id = true ∨ known x.taxon_id = true)
    (hrm : ∀ x ∈ l, lower x.taxon_id = true → (remapF x.taxon_id).isSome) :
    DatasetOld.remapScan lower known remapF l
      = some (l.map (fun i => if lower i.taxon_id then
          { i with taxon_id := (remapF i.taxon_id).getD i.taxon_id } else i)) := by
  induction l with
  | nil => rfl
  | cons x l ih =>
    have hih := ih (fun i hi => hlk i (List.mem_cons_of_mem _ hi))
      (fun i hi => hrm i (List.mem_cons_of_mem _ hi))
    rw [List.map_cons]
    cases l with
    | nil =>
      by_cases hlow : lower x.taxon_id = true
      · obtain ⟨a, ha⟩ := Option.isSome_iff_exists.mp (hrm x (List.mem_cons_self _ _) hlow)
        rw [DatasetOld.remapScan, if_pos hlow]
        simp only [ha]
        rw [if_pos hlow, Option.getD_some]
        rfl
      · rcases hlk x (List.mem_cons_self _ _) with hl2 | hkn
        · exact absurd hl2 hlow
        · rw [DatasetOld.remapScan, if_neg hlow, if_pos hkn, if_neg hlow]
          rfl
    | cons y rest =>
      by_cases hlow : lower x.taxon_id = true
      · obtain ⟨a, ha⟩ := Option.isSome_iff_exists.mp (hrm x (List.mem_cons_self _ _) hlow)
        rw [DatasetOld.remapScan, if_pos hlow]
        simp only [ha, hih, Option.map_some']
        rw [if_pos hlow, Option.getD_some]
      · rcases hlk x (List.mem_cons_self _ _) with hl2 | hkn
        · exact absurd hl2 hlow
        · rw [DatasetOld.remapScan, if_neg hlow, if_pos hkn, hih]
          rw [if_neg hlow]
          rfl

/-- Evaluation of the identification-rewriting loop over the C4 taxonomy
for identification lists with no dangling taxon reference. -/
theorem c4_scan_eval (l : List Iden)
    (hl : ∀ i ∈ l, i.taxon_id = 3 ∨ i.taxon_id = 2 ∨ i.taxon_id = 1) :
    DatasetOld.remapScan (fun tid => ([3] : List Int).contains tid)
      (fun tid => c4taxa.any (fun t => t.id == tid))
      (fun tid => (lastLookup Prod.fst [((3 : Int), (2 : Int)), (2, 2), (1, 1)] tid).map
        Prod.snd) l
    = some (l.map (fun i => if i.taxon_id = 3 then { i with taxon_id := 2 } else i)) := by
  rw [remapScan_all_resolved]
  · apply congrArg
    apply List.map_congr_left
    intro i hi
    rcases hl i hi with hx | hx | hx
    · rw [hx]
      norm_num [lastLookup]
    · rw [hx]
      norm_num
    · rw [hx]
      norm_num
  · intro x hx
    rcases hl x hx with h2 | h2 | h2 <;> rw [h2]
    · left; decide
    · right; decide
    · right; decide
  · intro x hx hlow
    rcases hl x hx with h2 | h2 | h2 <;> rw [h2] <;> decide

/-- C4 amended: on a store whose taxa are exactly the claim's three-level
taxonomy and all of whose identifications resolve (taxon ids among 1, 2,
3 — ruled out otherwise by the counterexample), collapsing to rank 20
rewrites exactly the species identifications to the genus id 2 and
removes the species taxon from the taxa collection. -/
theorem c4_rank_collapse (obs : List Obs) (photos : List ObsPhoto) (idens : List Iden)
    (users : List Int)
    (h : ∀ i ∈ idens, i.taxon_id = 3 ∨ i.taxon_id = 2 ∨ i.taxon_id = 1) :
    DatasetOld.set_rank_level_as_leaf_level 20 ⟨obs, photos, idens, c4taxa, users⟩
      = some ⟨obs, photos,
          idens.map (fun i => if i.taxon_id = 3 then { i with taxon_id := 2 } else i),
          [⟨2, some "1", PyVal.num 20, true⟩, ⟨1, some "", PyVal.num 30, true⟩], users⟩ := by
  have hcl : DatasetOld.classifyTaxa c4taxa 20
      = some ⟨[(3, 2), (2, 2), (1, 1)], [3], []⟩ := by decide
  unfold DatasetOld.set_rank_level_as_leaf_level
  dsimp only
  rw [hcl]
  dsimp only
  simp only [List.isEmpty_nil, if_true]
  rw [c4_scan_eval idens h]
  dsimp only
  rw [show c4taxa.filter (fun t => !(([3] : List Int).contains t.id))
    = [⟨2, some "1", PyVal.num 20, true⟩, ⟨1, some "", PyVal.num 30, true⟩] from by decide]

/-- Witness for C4's amended theorem at a concrete store: one species
identification and one genus identification. -/
theorem c4_witness :
    DatasetOld.set_rank_level_as_leaf_level 20
      ⟨[⟨1, 0, none, ""⟩], [], [⟨100, 1, 5, 3, "", true⟩, ⟨101, 1, 6, 2, "", true⟩],
       c4taxa, []⟩
    = some ⟨[⟨1, 0, none, ""⟩], [],
        [⟨100, 1, 5, 2, "", true⟩, ⟨101, 1, 6, 2, "", true⟩],
        [⟨2, some "1", PyVal.num 20, true⟩, ⟨1, some "", PyVal.num 30, true⟩], []⟩ := by
  have h := c4_rank_collapse [⟨1, 0, none, ""⟩] []
    [⟨100, 1, 5, 3, "", true⟩, ⟨101, 1, 6, 2, "", true⟩] [] (by decide)
  simpa using h

end ClaimC4

section ClaimC8

/-- The first element with minimal parsed timestamp of a list of
identifications: what a stable ascending sort followed by `[0]` selects
(on a timestamp tie the earlier-listed identification wins). -/
def firstMinIden : List Iden → Option Iden
  | [] => none
  | x :: xs =>
    match firstMinIden xs with
    | none => some x
    | some m => if DatasetOld.timeKey x ≤ DatasetOld.timeKey m then some x else some m

/-- The head of the stable ascending sort is the first minimal element. -/
theorem insertionSort_head (l : List Iden) :
    (List.insertionSort DatasetOld.timeLe l).head? = firstMinIden l := by
  induction l with
  | nil => rfl
  | cons x xs ih =>
    rw [List.insertionSort, firstMinIden]
    cases hm : firstMinIden xs with
    | none =>
      have hs : List.insertionSort DatasetOld.timeLe xs = [] :=
        List.head?_eq_none_iff.mp (ih.trans hm)
      rw [hs]
      rfl
    | some m =>
      have h2 := ih.trans hm
      obtain ⟨t, hs⟩ : ∃ t, List.insertionSort DatasetOld.timeLe xs = m :: t := by
        cases hsx : List.insertionSort DatasetOld.timeLe xs with
        | nil => rw [hsx] at h2; exact absurd h2 (by simp)
        | cons b t =>
          rw [hsx] at h2
          simp only [List.head?_cons, Option.some.injEq] at h2
          exact ⟨t, by rw [h2]⟩
      rw [hs, List.orderedInsert]
      dsimp only
      by_cases hr : DatasetOld.timeKey x ≤ DatasetOld.timeKey m
      · rw [if_pos hr, if_pos (show DatasetOld.timeLe x m from hr)]
        rfl
      · rw [if_neg hr, if_neg (show ¬ DatasetOld.timeLe x m from hr)]
        rfl

/-- The first minimal element of an empty list only is undefined. -/
theorem firstMinIden_eq_none {l : List Iden} : firstMinIden l = none ↔ l = [] := by
  cases l with
  | nil => simp [firstMinIden]
  | cons y ys =>
    constructor
    · intro h
      exfalso
      rw [firstMinIden] at h
      cases h2 : firstMinIden ys with
      | none => rw [h2] at h; simp at h
      | some m =>
        rw [h2] at h
        dsimp only at h
        revert h
        split <;> simp
    · intro h
      simp at h

/-- The first minimal element belongs to the list and its key is least. -/
theorem firstMinIden_spec : ∀ {l : List Iden} {m : Iden}, firstMinIden l = some m →
    m ∈ l ∧ ∀ j ∈ l, DatasetOld.timeKey m ≤ DatasetOld.timeKey j := by
  intro l
  induction l with
  | nil => intro m h; exact absurd h (by simp [firstMinIden])
  | cons x xs ih =>
    intro m h
    rw [firstMinIden] at h
    cases hm : firstMinIden xs with
    | none =>
      rw [hm] at h
      dsimp only at h
      cases h
      have hxs : xs = [] := firstMinIden_eq_none.mp hm
      subst hxs
      refine ⟨List.mem_cons_self _ _, ?_⟩
      intro j hj
      rcases List.mem_cons.mp hj with rfl | h2
      · exact le_refl _
      · exact absurd h2 (List.not_mem_nil _)
    | some m2 =>
      rw [hm] at h
      dsimp only at h
      obtain ⟨hmem, hmin⟩ := ih hm
      by_cases hr : DatasetOld.timeKey x ≤ DatasetOld.timeKey m2
      · rw [if_pos hr] at h
        cases h
        refine ⟨List.mem_cons_self _ _, ?_⟩
        intro j hj
        rcases List.mem_cons.mp hj with rfl | hj'
        · exact le_refl _
        · exact le_trans hr (hmin j hj')
      · rw [if_neg hr] at h
        cases h
        refine ⟨List.mem_cons_of_mem _ hmem, ?_⟩
        intro j hj
        rcases List.mem_cons.mp hj with rfl | hj'
        · exact le_of_not_le hr
        · exact hmin j hj'

/-- A nonempty list has a first minimal element. -/
theorem firstMinIden_isSome {l : List Iden} (h : l ≠ []) : (firstMinIden l).isSome := by
  cases l with
  | nil => exact absurd rfl h
  | cons x xs =>
    rw [firstMinIden]
    cases firstMinIden xs with
    | none => rfl
    | some m =>
      dsimp only
      split <;> rfl

/-- Python index 0 of a nonempty list. -/
theorem pyIndex_zero {n : Nat} (h : 0 < n) : DatasetOld.pyIndex 0 n = some 0 := by
  unfold DatasetOld.pyIndex
  rw [if_pos (le_refl (0 : Int)), if_pos (by exact_mod_cast h)]
  rfl

/-- Characterization of the ids selected per user with `keep_index = 0`:
exactly the first minimal identification of each user's group. -/
theorem selectUsers_zero_spec (idens : List Iden) (obId : Int) (us : List Int)
    (hne : ∀ u ∈ us, DatasetOld.groupIdens idens obId u ≠ []) :
    ∃ ids, DatasetOld.selectUsers 0 idens obId us = some ids ∧
      ∀ iid : Int, iid ∈ ids ↔ ∃ u ∈ us, ∃ m,
        firstMinIden (DatasetOld.groupIdens idens obId u) = some m ∧ m.id = iid := by
  induction us with
  | nil => exact ⟨[], rfl, by simp⟩
  | cons u us ih =>
    obtain ⟨ids, hsel, hchar⟩ := ih (fun v hv => hne v (List.mem_cons_of_mem _ hv))
    have hg : DatasetOld.groupIdens idens obId u ≠ [] := hne u (List.mem_cons_self _ _)
    obtain ⟨m, hm⟩ := Option.isSome_iff_exists.mp (firstMinIden_isSome hg)
    have hlen : 0 < (List.insertionSort DatasetOld.timeLe
        (DatasetOld.groupIdens idens obId u)).length := by
      rw [List.length_insertionSort]
      exact List.length_pos.mpr hg
    have hget : (List.insertionSort DatasetOld.timeLe
        (DatasetOld.groupIdens idens obId u)).get? 0 = some m := by
      rw [List.get?_zero, insertionSort_head, hm]
    rw [DatasetOld.selectUsers, pyIndex_zero hlen]
    dsimp only
    rw [hget]
    dsimp only
    rw [hsel]
    simp only [Option.map_some']
    refine ⟨m.id :: ids, rfl, ?_⟩
    intro iid
    rw [List.mem_cons, hchar iid]
    constructor
    · rintro (rfl | ⟨v, hv, m2, hm2, hid2⟩)
      · exact ⟨u, List.mem_cons_self _ _, m, hm, rfl⟩
      · exact ⟨v, List.mem_cons_of_mem _ hv, m2, hm2, hid2⟩
    · rintro ⟨v, hv, m2, hm2, hid2⟩
      rcases List.mem_cons.mp hv with rfl | hv'
      · rw [hm] at hm2
        cases hm2
        exact Or.inl hid2.symm
      · exact Or.inr ⟨v, hv', m2, hm2, hid2⟩

/-- Characterization of the full kept-id set with `keep_index = 0`. -/
theorem selectObs_zero_spec (idens : List Iden) (obs : List Obs) :
    ∃ ids, DatasetOld.selectObs 0 idens obs = some ids ∧
      ∀ iid : Int, iid ∈ ids ↔ ∃ ob ∈ obs,
        ∃ u ∈ firstDedup ((idens.filter (fun i => i.observation_id == ob.id)).map
          (fun i => i.user_id)), ∃ m,
          firstMinIden (DatasetOld.groupIdens idens ob.id u) = some m ∧ m.id = iid := by
  induction obs with
  | nil => exact ⟨[], rfl, by simp⟩
  | cons ob obs ih =>
    obtain ⟨ids2, hsel2, hchar2⟩ := ih
    have hne : ∀ u ∈ firstDedup ((idens.filter (fun i => i.observation_id == ob.id)).map
        (fun i => i.user_id)), DatasetOld.groupIdens idens ob.id u ≠ [] := by
      intro u hu
      rw [mem_firstDedup, List.mem_map] at hu
      obtain ⟨i, hi, rfl⟩ := hu
      rw [List.mem_filter] at hi
      intro hempty
      have hmem : i ∈ DatasetOld.groupIdens idens ob.id i.user_id := by
        rw [DatasetOld.groupIdens, List.mem_filter]
        exact ⟨hi.1, by simp [hi.2]⟩
      rw [hempty] at hmem
      exact absurd hmem (List.not_mem_nil _)
    obtain ⟨ids1, hsel1, hchar1⟩ := selectUsers_zero_spec idens ob.id _ hne
    rw [DatasetOld.selectObs, hsel1, hsel2]
    refine ⟨ids1 ++ ids2, rfl, ?_⟩
    intro iid
    rw [List.mem_append, hchar1 iid, hchar2 iid]
    constructor
    · rintro (⟨u, hu, m, hm, hid⟩ | ⟨ob2, hob2, rest⟩)
      · exact ⟨ob, List.mem_cons_self _ _, u, hu, m, hm, hid⟩
      · exact ⟨ob2, List.mem_cons_of_mem _ hob2, rest⟩
    · rintro ⟨ob2, hob2, rest⟩
      rcases List.mem_cons.mp hob2 with rfl | hob2'
      · exact Or.inl rest
      · exact Or.inr ⟨ob2, hob2', rest⟩

/-- C8 amended: when additionally every identification's observation
resolves (otherwise the grouping raises a `KeyError`, see the
counterexample) and identification ids are unique (the sanity pass
asserts this), `keep_one_identification_per_user_per_observation` with
`keep_index = 0` completes, leaves the other collections unchanged, and
keeps within each (observation, user) group exactly the first
identification of minimal parsed timestamp, which is earliest in the
group — in particular, for a group with two identifications at times
`t1 < t2`, only the `t1` record survives. -/
theorem c8_keep_first (s : Store)
    (h1 : s.identifications.all (obResolves s) = true)
    (h2 : s.identifications.all (fun i => (parseCreatedAt i.created_at).isSome) = true)
    (h3 : (s.identifications.map (fun i => i.id)).Nodup) :
    ∃ s1, DatasetOld.keep_one_identification_per_user_per_observation 0 s = some s1 ∧
      s1.observations = s.observations ∧
      s1.observation_photos = s.observation_photos ∧
      s1.taxa = s.taxa ∧
      (∀ i ∈ s.identifications,
        (i ∈ s1.identifications ↔
          firstMinIden (DatasetOld.groupIdens s.identifications i.observation_id i.user_id)
            = some i)) ∧
      (∀ i ∈ s1.identifications,
        ∀ j ∈ DatasetOld.groupIdens s.identifications i.observation_id i.user_id,
          DatasetOld.timeKey i ≤ DatasetOld.timeKey j) := by
  obtain ⟨kept, hsel, hchar⟩ := selectObs_zero_spec s.identifications s.observations
  have hfwd : ∀ i ∈ s.identifications, kept.contains i.id = true →
      firstMinIden (DatasetOld.groupIdens s.identifications i.observation_id i.user_id)
        = some i := by
    intro i hi hc
    rw [contains_int_iff, hchar i.id] at hc
    obtain ⟨ob, _, u, _, m, hm, hmid⟩ := hc
    have hmmem : m ∈ DatasetOld.groupIdens s.identifications ob.id u := (firstMinIden_spec hm).1
    have hmidens : m ∈ s.identifications := by
      rw [DatasetOld.groupIdens, List.mem_filter] at hmmem
      exact hmmem.1
    have hmi : m = i := List.inj_on_of_nodup_map h3 hmidens hi hmid
    subst hmi
    rw [DatasetOld.groupIdens, List.mem_filter, Bool.and_eq_true, beq_iff_eq, beq_iff_eq] at hmmem
    rw [hmmem.2.1, hmmem.2.2]
    exact hm
  have hbwd : ∀ i ∈ s.identifications,
      firstMinIden (DatasetOld.groupIdens s.identifications i.observation_id i.user_id)
        = some i → kept.contains i.id = true := by
    intro i hi hm
    rw [contains_int_iff, hchar i.id]
    have hres : obResolves s i = true := List.all_eq_true.mp h1 i hi
    rw [obResolves, List.any_eq_true] at hres
    obtain ⟨ob, hob, hbeq⟩ := hres
    rw [beq_iff_eq] at hbeq
    refine ⟨ob, hob, i.user_id, ?_, i, ?_, rfl⟩
    · rw [mem_firstDedup, List.mem_map]
      exact ⟨i, List.mem_filter.mpr ⟨hi, by simp [hbeq]⟩, rfl⟩
    · rw [hbeq]
      exact hm
  refine ⟨{ s with identifications :=
      s.identifications.filter (fun i => kept.contains i.id) }, ?_, rfl, rfl, rfl, ?_, ?_⟩
  · unfold DatasetOld.keep_one_identification_per_user_per_observation
    rw [if_neg (by simp [h1]), if_neg (by simp [h2]), hsel]
  · intro i hi
    dsimp only
    rw [List.mem_filter]
    constructor
    · rintro ⟨_, hc⟩
      exact hfwd i hi hc
    · intro hm
      exact ⟨hi, hbwd i hi hm⟩
  · intro i hi
    dsimp only at hi
    rw [List.mem_filter] at hi
    have hm := hfwd i hi.1 hi.2
    exact fun j hj => (firstMinIden_spec hm).2 j hj

/-- The C8 counterexample store: every `created_at` parses (the claim's
stated hypothesis holds) but one identification's `observation_id` 999
resolves to no observation. -/
def c8cex : Store :=
  ⟨[⟨1, 0, none, ""⟩], [],
   [⟨102, 999, 6, 1, "2020-01-01 00:00:00", true⟩,
    ⟨100, 1, 5, 1, "2020-01-01 00:00:00", true⟩,
    ⟨101, 1, 5, 1, "2020-01-02 00:00:00", true⟩],
   [⟨1, none, PyVal.num 10, true⟩], []⟩

/-- C8 counterexample: on a store satisfying the claim's hypothesis
(every timestamp parses) the operation does not keep the earliest
identification per group and drop the others — it raises a `KeyError`
while grouping the identification whose observation is missing, keeping
and dropping nothing. -/
theorem c8_counterexample :
    DatasetOld.keep_one_identification_per_user_per_observation 0 c8cex = none ∧
    c8cex.identifications.all (fun i => (parseCreatedAt i.created_at).isSome) = true := by
  constructor
  · decide
  · decide

/-- The well-formed store of the C8 witness: one user with identifications
at `t1 < t2` on one observation. -/
def c8w : Store :=
  ⟨[⟨1, 0, none, ""⟩], [],
   [⟨100, 1, 5, 1, "2020-01-01 00:00:00", true⟩,
    ⟨101, 1, 5, 1, "2020-01-02 00:00:00", true⟩],
   [⟨1, none, PyVal.num 10, true⟩], []⟩

/-- The earlier (`t1`) identification of the C8 witness. -/
def c8A : Iden := ⟨100, 1, 5, 1, "2020-01-01 00:00:00", true⟩

/-- The later (`t2`) identification of the C8 witness. -/
def c8B : Iden := ⟨101, 1, 5, 1, "2020-01-02 00:00:00", true⟩

/-- Witness for C8: on the two-identification store the operation
completes and keeps only the `t1` record. -/
theorem c8_witness :
    (DatasetOld.keep_one_identification_per_user_per_observation 0 c8w).elim False
      (fun s1 => c8A ∈ s1.identifications ∧ c8B ∉ s1.identifications) := by
  obtain ⟨s1, heq, _, _, _, hiff, _⟩ := c8_keep_first c8w (by decide) (by decide) (by decide)
  rw [heq]
  refine ⟨(hiff c8A (by decide)).mpr (by decide), ?_⟩
  intro hmem
  have := (hiff c8B (by decide)).mp hmem
  revert this
  decide

end ClaimC8

section ClaimC1

/-- A `PyVal` cannot be both strictly below and at-or-above a rank. -/
theorem pyVal_lt_ge_contra {v : PyVal} {c : ℚ} (h1 : pyValLtNum v c = some true)
    (h2 : pyValGeNum v c = some true) : False := by
  cases v with
  | num q =>
    simp only [pyValLtNum, pyValGeNum, Option.some.injEq, decide_eq_true_eq] at h1 h2
    exact absurd h1 (not_lt.mpr h2)
  | str s => simp [pyValLtNum] at h1

/-- The invariant the classification loop of the rank collapser
maintains: lower ids come from taxa rows strictly below the target rank,
unremappable ids are lower ids, every remap target is either a taxon at
or above the target rank (under the last-binding-wins rank map) or the
self-map of a non-lower row, and every lower id not marked unremappable
has a remap binding. -/
def ClassInv (taxa : List Taxon) (leaf : ℚ) (st : DatasetOld.RankState) : Prop :=
  (∀ tid ∈ st.lower, ∃ t ∈ taxa, t.id = tid ∧ pyValLtNum t.rank_level leaf = some true) ∧
  (∀ tid ∈ st.notRemapped, tid ∈ st.lower) ∧
  (∀ p ∈ st.remap,
    (∃ t, lastLookup Taxon.id taxa p.2 = some t ∧ pyValGeNum t.rank_level leaf = some true) ∨
    (p.2 = p.1 ∧ ∃ t ∈ taxa, t.id = p.1 ∧ pyValLtNum t.rank_level leaf = some false)) ∧
  (∀ tid ∈ st.lower, tid ∉ st.notRemapped → ∃ p ∈ st.remap, p.1 = tid)

/-- A found ancestor is a taxon at or above the target rank. -/
theorem findAncestor_sound {taxa : List Taxon} {leaf : ℚ} :
    ∀ {toks : List (List Char)} {aid : Int},
      DatasetOld.findAncestor taxa leaf toks = some (some aid) →
      ∃ t, lastLookup Taxon.id taxa aid = some t ∧
        pyValGeNum t.rank_level leaf = some true := by
  intro toks
  induction toks with
  | nil => intro aid h; exact absurd h (by simp [DatasetOld.findAncestor])
  | cons tok rest ih =>
    intro aid h
    rw [DatasetOld.findAncestor] at h
    split at h
    · exact absurd h (by simp)
    · split at h
      · exact ih h
      · split at h
        · exact absurd h (by simp)
        · cases h
          exact ⟨_, by assumption, by assumption⟩
        · exact ih h

/-- The classification loop preserves `ClassInv`. -/
theorem classifyAux_inv {taxa : List Taxon} {leaf : ℚ} :
    ∀ {rows : List Taxon} {st0 st : DatasetOld.RankState},
      DatasetOld.classifyAux taxa leaf rows st0 = some st →
      (∀ r ∈ rows, r ∈ taxa) → ClassInv taxa leaf st0 → ClassInv taxa leaf st := by
  intro rows
  induction rows with
  | nil =>
    intro st0 st h _ hinv
    rw [DatasetOld.classifyAux] at h
    cases h
    exact hinv
  | cons t rest ih =>
    intro st0 st h hrows hinv
    obtain ⟨hlow, hnr, hrm, hcov⟩ := hinv
    have ht : t ∈ taxa := hrows t (List.mem_cons_self _ _)
    have hrest : ∀ r ∈ rest, r ∈ taxa := fun r hr => hrows r (List.mem_cons_of_mem _ hr)
    rw [DatasetOld.classifyAux] at h
    split at h
    · exact absurd h (by simp)
    · -- rank strictly below the target
      rename_i hlt
      split at h
      · -- no ancestry: unremappable
        refine ih h hrest ⟨?_, ?_, hrm, ?_⟩
        · intro tid htid
          rcases List.mem_append.mp htid with htid | htid
          · exact hlow tid htid
          · rw [List.mem_singleton] at htid
            exact ⟨t, ht, htid.symm ▸ rfl, hlt⟩
        · intro tid htid
          rcases List.mem_append.mp htid with htid | htid
          · exact List.mem_append_left _ (hnr tid htid)
          · exact List.mem_append_right _ htid
        · intro tid htid hne
          rcases List.mem_append.mp htid with htid | htid
          · exact hcov tid htid (fun hmem => hne (List.mem_append_left _ hmem))
          · exact absurd (List.mem_append_right st0.notRemapped htid) hne
      · -- ancestry walk
        split at h
        · exact absurd h (by simp)
        · -- no qualifying ancestor: unremappable
          refine ih h hrest ⟨?_, ?_, hrm, ?_⟩
          · intro tid htid
            rcases List.mem_append.mp htid with htid | htid
            · exact hlow tid htid
            · rw [List.mem_singleton] at htid
              exact ⟨t, ht, htid.symm ▸ rfl, hlt⟩
          · intro tid htid
            rcases List.mem_append.mp htid with htid | htid
            · exact List.mem_append_left _ (hnr tid htid)
            · exact List.mem_append_right _ htid
          · intro tid htid hne
            rcases List.mem_append.mp htid with htid | htid
            · exact hcov tid htid (fun hmem => hne (List.mem_append_left _ hmem))
            · exact absurd (List.mem_append_right st0.notRemapped htid) hne
        · -- found a qualifying ancestor: remap binding added
          rename_i aid hfound
          refine ih h hrest ⟨?_, ?_, ?_, ?_⟩
          · intro tid htid
            rcases List.mem_append.mp htid with htid | htid
            · exact hlow tid htid
            · rw [List.mem_singleton] at htid
              exact ⟨t, ht, htid.symm ▸ rfl, hlt⟩
          · intro tid htid
            exact List.mem_append_left _ (hnr tid htid)
          · intro p hp
            rcases List.mem_append.mp hp with hp | hp
            · exact hrm p hp
            · rw [List.mem_singleton] at hp
              subst hp
              exact Or.inl (findAncestor_sound hfound)
          · intro tid htid hne
            rcases List.mem_append.mp htid with htid | htid
            · obtain ⟨p, hp, hpt⟩ := hcov tid htid hne
              exact ⟨p, List.mem_append_left _ hp, hpt⟩
            · rw [List.mem_singleton] at htid
              exact ⟨(t.id, aid), List.mem_append_right _ (List.mem_singleton.mpr rfl), htid.symm⟩
    · -- rank at or above the target: self remap binding
      rename_i hge
      refine ih h hrest ⟨hlow, hnr, ?_, ?_⟩
      · intro p hp
        rcases List.mem_append.mp hp with hp | hp
        · exact hrm p hp
        · rw [List.mem_singleton] at hp
          subst hp
          exact Or.inr ⟨rfl, t, ht, rfl, hge⟩
      · intro tid htid hne
        obtain ⟨p, hp, hpt⟩ := hcov tid htid hne
        exact ⟨p, List.mem_append_left _ hp, hpt⟩

/-- The integrity invariant unfolded to a proposition. -/
theorem integrityB_iff {s : Store} :
    integrityB s = true ↔
      ∀ i ∈ s.identifications,
        (∃ ob ∈ s.observations, ob.id = i.observation_id) ∧
        ∃ t ∈ s.taxa, t.id = i.taxon_id := by
  unfold integrityB obResolves taxResolves
  simp [List.all_eq_true, List.any_eq_true]

/-- Non-membership gives `contains = false` for integer lists. -/
theorem contains_int_false {l : List Int} {x : Int} (h : x ∉ l) : l.contains x = false := by
  cases hc : l.contains x with
  | false => rfl
  | true => exact absurd (contains_int_iff.mp hc) h

/-- The observation-filter-then-cascade pattern shared by
`keep_specific_observations`, `remove_obs_with_no_photos`,
`enforce_min_identifications` and `enforce_max_observations` preserves
integrity: identifications are refiltered against the surviving
observations, and the taxa collection is untouched. -/
theorem integrity_cascade (s : Store) (h : integrityB s = true) (p : Obs → Bool) :
    integrityB { s with
      observations := s.observations.filter p,
      identifications := s.identifications.filter
        (fun i => (s.observations.filter p).any (fun ob => ob.id == i.observation_id)) }
      = true := by
  rw [integrityB_iff] at h ⊢
  intro i hi
  rw [List.mem_filter] at hi
  obtain ⟨hi0, hany⟩ := hi
  refine ⟨?_, (h i hi0).2⟩
  rw [List.any_eq_true] at hany
  obtain ⟨ob, hob, heq⟩ := hany
  exact ⟨ob, hob, by simpa using heq⟩

/-- Filtering the identification collection down (with observations and
taxa untouched) preserves integrity: covers
`keep_current_identifications` and
`keep_one_identification_per_user_per_observation`. -/
theorem integrity_iden_subfilter (s : Store) (h : integrityB s = true) (q : Iden → Bool) :
    integrityB { s with identifications := s.identifications.filter q } = true := by
  rw [integrityB_iff] at h ⊢
  intro i hi
  exact h i (List.mem_filter.mp hi).1

/-- Core preservation argument for `set_rank_level_as_leaf_level`: with
the classification invariant in hand and any identification/taxa
pre-filter that drops unremappable ids, the rewrite scan succeeds and
the final store satisfies integrity. -/
theorem set_rank_core (s : Store) (leaf : ℚ) (st : DatasetOld.RankState)
    (h : integrityB s = true) (hnd : (s.taxa.map Taxon.id).Nodup)
    (hinv : ClassInv s.taxa leaf st)
    (idens1 : List Iden) (taxa1 : List Taxon)
    (hsub : ∀ x ∈ idens1, x ∈ s.identifications)
    (hno : ∀ x ∈ idens1, x.taxon_id ∉ st.notRemapped)
    (htx : ∀ t ∈ s.taxa, t.id ∉ st.notRemapped → t ∈ taxa1) :
    ∃ idens2,
      DatasetOld.remapScan (fun tid => st.lower.contains tid)
        (fun tid => s.taxa.any (fun t => t.id == tid))
        (fun tid => (lastLookup Prod.fst st.remap tid).map Prod.snd) idens1 = some idens2 ∧
      integrityB { s with identifications := idens2,
                          taxa := taxa1.filter (fun t => !st.lower.contains t.id) } = true := by
  obtain ⟨hlow, hnr, hrm, hcov⟩ := hinv
  rw [integrityB_iff] at h
  have hinj := List.inj_on_of_nodup_map hnd
  have hlk : ∀ x ∈ idens1, (st.lower.contains x.taxon_id) = true ∨
      (s.taxa.any (fun t => t.id == x.taxon_id)) = true := by
    intro x hx
    right
    obtain ⟨t, ht, htid⟩ := (h x (hsub x hx)).2
    rw [List.any_eq_true]
    exact ⟨t, ht, by simpa using htid⟩
  have hrmS : ∀ x ∈ idens1, st.lower.contains x.taxon_id = true →
      ((lastLookup Prod.fst st.remap x.taxon_id).map Prod.snd).isSome := by
    intro x hx hc
    obtain ⟨p, hp, hpt⟩ := hcov _ (contains_int_iff.mp hc) (hno x hx)
    have hs := @lastLookup_isSome _ Prod.fst st.remap x.taxon_id ⟨p, hp, hpt⟩
    cases hl : lastLookup Prod.fst st.remap x.taxon_id with
    | none => rw [hl] at hs; simp at hs
    | some q => simp
  refine ⟨_, remapScan_all_resolved _ _ _ idens1 hlk hrmS, ?_⟩
  rw [integrityB_iff]
  intro y hy
  dsimp only at hy
  obtain ⟨x, hx, rfl⟩ := List.mem_map.mp hy
  have hxint := h x (hsub x hx)
  constructor
  · obtain ⟨ob, hob, hobid⟩ := hxint.1
    refine ⟨ob, hob, ?_⟩
    by_cases hc : st.lower.contains x.taxon_id = true
    · rw [if_pos hc]; exact hobid
    · rw [if_neg hc]; exact hobid
  · by_cases hc : st.lower.contains x.taxon_id = true
    · rw [if_pos hc]
      cases hl : lastLookup Prod.fst st.remap x.taxon_id with
      | none =>
        have hs := hrmS x hx hc
        rw [hl] at hs
        simp at hs
      | some q =>
        obtain ⟨hq1, hq2⟩ := lastLookup_eq_some hl
        rcases hrm q hq1 with ⟨t, hlookt, hge⟩ | ⟨hq21, t, ht, htid, hltf⟩
        · obtain ⟨htmem, htkey⟩ := lastLookup_eq_some hlookt
          have hnl : t.id ∉ st.lower := by
            intro hmem2
            obtain ⟨t2, ht2, ht2id, hlt2⟩ := hlow _ hmem2
            have ht2t : t2 = t := hinj ht2 htmem ht2id
            rw [ht2t] at hlt2
            exact pyVal_lt_ge_contra hlt2 hge
          have hnnr : t.id ∉ st.notRemapped := fun hm => hnl (hnr _ hm)
          refine ⟨t, ?_, ?_⟩
          · rw [List.mem_filter]
            refine ⟨htx t htmem hnnr, ?_⟩
            rw [contains_int_false hnl]
            rfl
          · simp only [hl, Option.map_some', Option.getD_some]
            exact htkey
        · exfalso
          obtain ⟨t2, ht2, ht2id, hlt2⟩ := hlow _ (contains_int_iff.mp hc)
          have ht2t : t2 = t := hinj ht2 ht (by rw [ht2id, htid, hq2])
          rw [ht2t, hltf] at hlt2
          simp at hlt2
    · rw [if_neg hc]
      obtain ⟨t, ht, htid⟩ := hxint.2
      have hnl : t.id ∉ st.lower := by
        intro hm
        rw [htid] at hm
        exact hc (contains_int_iff.mpr hm)
      have hnnr : t.id ∉ st.notRemapped := fun hm => hnl (hnr _ hm)
      refine ⟨t, ?_, htid⟩
      rw [List.mem_filter]
      refine ⟨htx t ht hnnr, ?_⟩
      rw [contains_int_false hnl]
      rfl

/-- A store with one identification whose `taxon_id` 99 resolves to no
taxon (reachable through the constructor because of the sanity-pass
removal bug). -/
def c1bad : Store :=
  { observations := [⟨1, 0, none, ""⟩],
    observation_photos := [],
    identifications := [⟨10, 1, 7, 99, "", true⟩],
    taxa := [⟨1, none, PyVal.num 10, true⟩],
    users := [] }

/-- C1 (counterexample to the unconditional claim): on a store that
already contains a dangling identification, `remove_non_active_taxa`
completes normally yet the surviving identification's `taxon_id` still
resolves to no taxon — the operations restore no integrity they were not
given. -/
theorem c1_counterexample :
    (DatasetOld.remove_non_active_taxa c1bad).identifications = [⟨10, 1, 7, 99, "", true⟩] ∧
    integrityB (DatasetOld.remove_non_active_taxa c1bad) = false := by decide

/-- C1 (amended): provided the store satisfies referential integrity
before the operation (and, for the rank collapse, its taxon ids are
unique), every pipeline operation that completes normally preserves it:
every surviving identification's `observation_id` refers to an
observation in the current observations collection and its `taxon_id`
to a taxon in the current taxa collection. -/
theorem c1_integrity_preserved (s : Store) (h : integrityB s = true)
    (hnd : (s.taxa.map Taxon.id).Nodup) :
    (∀ ids, integrityB (DatasetOld.keep_specific_observations ids s) = true) ∧
    (∀ s1, DatasetOld.keep_current_identifications s = some s1 → integrityB s1 = true) ∧
    (∀ k s1, DatasetOld.keep_one_identification_per_user_per_observation k s = some s1 →
      integrityB s1 = true) ∧
    integrityB (DatasetOld.remove_obs_with_no_photos s) = true ∧
    integrityB (DatasetOld.remove_non_active_taxa s) = true ∧
    (∀ m s1, DatasetOld.enforce_min_identifications m s = some s1 → integrityB s1 = true) ∧
    (∀ mo chosen s1, DatasetOld.enforce_max_observations mo chosen s = some s1 →
      integrityB s1 = true) ∧
    (∀ leaf s1, DatasetOld.set_rank_level_as_leaf_level leaf s = some s1 →
      integrityB s1 = true) ∧
    (∀ v, integrityB (DatasetOld.create_flat_taxonomy v s) = true) := by
  refine ⟨?_, ?_, ?_, ?_, ?_, ?_, ?_, ?_, ?_⟩
  · intro ids
    unfold DatasetOld.keep_specific_observations
    exact integrity_cascade s h (fun ob => ids.contains ob.id)
  · intro s1 hop
    unfold DatasetOld.keep_current_identifications at hop
    dsimp only at hop
    split at hop
    · exact absurd hop (by simp)
    · split at hop
      · cases hop
        exact integrity_iden_subfilter s h (fun i => i.current)
      · exact absurd hop (by simp)
  · intro k s1 hop
    unfold DatasetOld.keep_one_identification_per_user_per_observation at hop
    split at hop
    · exact absurd hop (by simp)
    · split at hop
      · exact absurd hop (by simp)
      · split at hop
        · exact absurd hop (by simp)
        · cases hop
          exact integrity_iden_subfilter s h _
  · unfold DatasetOld.remove_obs_with_no_photos
    exact integrity_cascade s h
      (fun ob => (s.observation_photos.map (fun p => p.observation_id)).contains ob.id)
  · unfold DatasetOld.remove_non_active_taxa
    rw [integrityB_iff]
    intro i hi
    dsimp only at hi ⊢
    rw [List.mem_filter] at hi
    obtain ⟨hi0, hkeep⟩ := hi
    have h' := integrityB_iff.mp h
    refine ⟨(h' i hi0).1, ?_⟩
    obtain ⟨t, ht, htid⟩ := (h' i hi0).2
    refine ⟨t, ?_, htid⟩
    rw [List.mem_filter]
    refine ⟨ht, ?_⟩
    rw [htid]
    exact hkeep
  · intro m s1 hop
    unfold DatasetOld.enforce_min_identifications at hop
    split at hop
    · exact absurd hop (by simp)
    · cases hop
      exact integrity_cascade s h (fun ob => (DatasetOld.minKeepIds m s).contains ob.id)
  · intro mo chosen s1 hop
    unfold DatasetOld.enforce_max_observations at hop
    cases mo with
    | none =>
      dsimp only at hop
      cases hop
      exact h
    | some m =>
      dsimp only at hop
      split at hop
      · cases hop
        exact h
      · split at hop
        · exact absurd hop (by simp)
        · cases hop
          exact integrity_cascade s h (fun ob => chosen.contains ob.id)
  · intro leaf s1 hop
    unfold DatasetOld.set_rank_level_as_leaf_level at hop
    cases hcl : DatasetOld.classifyTaxa s.taxa leaf with
    | none => rw [hcl] at hop; exact absurd hop (by simp)
    | some st =>
      rw [hcl] at hop
      dsimp only at hop
      have hcl' : DatasetOld.classifyAux s.taxa leaf s.taxa ⟨[], [], []⟩ = some st := hcl
      have hinv := classifyAux_inv hcl' (fun r hr => hr)
        ⟨fun tid h0 => absurd h0 (List.not_mem_nil _),
         fun tid h0 => absurd h0 (List.not_mem_nil _),
         fun p h0 => absurd h0 (List.not_mem_nil _),
         fun tid h0 _ => absurd h0 (List.not_mem_nil _)⟩
      cases hE : st.notRemapped.isEmpty with
      | true =>
        rw [if_pos hE, if_pos hE] at hop
        have hnil : st.notRemapped = [] := by
          cases hl : st.notRemapped with
          | nil => rfl
          | cons a l => rw [hl] at hE; simp [List.isEmpty] at hE
        obtain ⟨idens2, hscan, hint⟩ := set_rank_core s leaf st h hnd hinv
          s.identifications s.taxa (fun x hx => hx)
          (fun x _ hm => by rw [hnil] at hm; exact List.not_mem_nil _ hm)
          (fun t ht _ => ht)
        rw [hscan] at hop
        dsimp only at hop
        cases hop
        exact hint
      | false =>
        have hE' : ¬ (st.notRemapped.isEmpty = true) := by
          rw [hE]; exact Bool.false_ne_true
        rw [if_neg hE', if_neg hE'] at hop
        obtain ⟨idens2, hscan, hint⟩ := set_rank_core s leaf st h hnd hinv
          (s.identifications.filter (fun i => !st.notRemapped.contains i.taxon_id))
          (s.taxa.filter (fun t => !st.notRemapped.contains t.id))
          (fun x hx => (List.mem_filter.mp hx).1)
          (fun x hx hm => by
            have hb := (List.mem_filter.mp hx).2
            rw [contains_int_iff.mpr hm] at hb
            simp at hb)
          (fun t ht hm => List.mem_filter.mpr ⟨ht, by rw [contains_int_false hm]; rfl⟩)
        rw [hscan] at hop
        dsimp only at hop
        cases hop
        exact hint
  · intro v
    unfold DatasetOld.create_flat_taxonomy
    rw [integrityB_iff]
    intro i hi
    dsimp only at hi ⊢
    rw [List.mem_filter] at hi
    obtain ⟨hi0, hany⟩ := hi
    refine ⟨(integrityB_iff.mp h i hi0).1, ?_⟩
    rw [List.any_eq_true] at hany
    obtain ⟨t, ht, heq⟩ := hany
    exact ⟨t, ht, by simpa using heq⟩

/-- A small store that satisfies integrity and has unique taxon ids. -/
def c1w : Store :=
  { observations := [⟨1, 0, none, ""⟩],
    observation_photos := [⟨1, "u"⟩],
    identifications := [⟨10, 1, 7, 5, "", true⟩],
    taxa := [⟨5, none, PyVal.num 10, true⟩],
    users := [7] }

/-- Witness: the amended C1 theorem applied at `c1w`, with
`remove_non_active_taxa` preserving integrity there. -/
theorem c1_witness :
    integrityB c1w = true ∧ (c1w.taxa.map Taxon.id).Nodup ∧
      integrityB (DatasetOld.remove_non_active_taxa c1w) = true :=
  ⟨by decide, by decide,
    (c1_integrity_preserved c1w (by decide) (by decide)).2.2.2.2.1⟩

end ClaimC1
